import Mathlib

/-!
# marin3r: revision selection, status update and snapshot publication

A shallow embedding of the two reconcilers of marin3r

* `pkg/controller/nodeconfigcache/nodeconfigcache_controller.go`
  (`Reconcile`, `getVersionToPublish`, `updateStatus`, `contains`), and
* `pkg/controller/nodeconfigrevision/nodeconfigrevision_controller.go`
  (`Reconcile`, `loadResources`, `resourceLoaderError`, `newNodeSnapshot`,
  `setResource`, `snapshotIsEqual`),

followed by the properties proved about them.

Go strings are `String`, slices are `List`, a `map[string]T` is an `AList`
(an association list without duplicate keys, `m[k] = v` being `AList.insert`),
a Go `(value, error)` pair is a product with an `Option` error, and calls to the
Kubernetes API server are functions carried by an explicit client value.
-/

namespace Marin3r

/-! ## Conditions (operator-sdk `status` package) -/

/-- The value `corev1.ConditionTrue`. -/
def ConditionTrue : String := "True"

/-- One `status.Condition`: a typed observation with a status string. -/
structure Condition where
  Type_ : String
  Status : String
  Reason : String := ""
  Message : String := ""
deriving DecidableEq

/-- The method `Condition.IsTrue`. -/
def Condition.IsTrue (c : Condition) : Bool :=
  c.Status == ConditionTrue

/-- The method `Conditions.IsTrueFor`: the first condition of type `t` decides;
without one the answer is `false`. -/
def IsTrueFor : List Condition → String → Bool
  | [], _ => false
  | condition :: rest, t =>
    if condition.Type_ == t then condition.IsTrue else IsTrueFor rest t

/-- Condition marking the revision that should be published. -/
def RevisionPublishedCondition : String := "RevisionPublished"

/-- Condition other controllers use to ask for a resync. -/
def ResourcesOutOfSyncCondition : String := "ResourcesOutOfSync"

/-- Condition reporting that a revision should not be published. -/
def RevisionTaintedCondition : String := "RevisionTainted"

/-! ## API types -/

/-- Modelled from the spec: the type `EnvoyResource`, declared outside the
files at hand: a named resource definition with its opaque value. -/
structure EnvoyResource where
  Name : String
  Value : String
deriving DecidableEq

/-- A `corev1.SecretReference`. -/
structure SecretReference where
  Name : String
  Namespace : String
deriving DecidableEq

/-- Modelled from the spec: the type `EnvoySecretResource`, declared outside
the files at hand: a named secret with the reference to its credential
object. -/
structure EnvoySecretResource where
  Name : String
  Ref : SecretReference
deriving DecidableEq

/-- Modelled from the spec: the type `EnvoyResources`, declared outside the
files at hand: the resource specification, one list of named definitions per
category. -/
structure EnvoyResources where
  Endpoints : List EnvoyResource := []
  Clusters : List EnvoyResource := []
  Routes : List EnvoyResource := []
  Listeners : List EnvoyResource := []
  Runtimes : List EnvoyResource := []
  Secrets : List EnvoySecretResource := []
deriving DecidableEq

/-- The type `NodeConfigRevisionSpec`; `Resources` is a pointer, `none` is nil. -/
structure NodeConfigRevisionSpec where
  NodeID : String
  Version : String
  Serialization : String := ""
  Resources : Option EnvoyResources := none
deriving DecidableEq

/-- The type `NodeConfigRevisionStatus` (the timestamp is left out). -/
structure NodeConfigRevisionStatus where
  Published : Bool := false
  Tainted : Bool := false
  Conditions : List Condition := []
deriving DecidableEq

/-- The type `NodeConfigRevision`. -/
structure NodeConfigRevision where
  Spec : NodeConfigRevisionSpec
  Status : NodeConfigRevisionStatus := {}
deriving DecidableEq

/-- Modelled from the spec: the type of the entries of `ConfigRevisions`,
declared outside the files at hand: a version and the reference to the
revision object. -/
structure ConfigRevisionRef where
  Version : String
  Ref : String := ""
deriving DecidableEq

/-- Modelled from the spec: the constant `InSyncState`, the cache-sync state
`InSync` of section 4.1, declared outside the files at hand. -/
def InSyncState : String := "InSync"

/-- Modelled from the spec: the constant `RollbackState`, the cache-sync state
`Rollback` of section 4.1, declared outside the files at hand. -/
def RollbackState : String := "Rollback"

/-- Modelled from the spec: the type `NodeConfigCacheSpec`, declared outside
the files at hand, with the fields the reconciler reads. -/
structure NodeConfigCacheSpec where
  NodeID : String
  Resources : EnvoyResources := {}
deriving DecidableEq

/-- Modelled from the spec: the type `NodeConfigCacheStatus`, declared outside
the files at hand, with the fields the reconciler reads and writes. -/
structure NodeConfigCacheStatus where
  PublishedVersion : String := ""
  DesiredVersion : String := ""
  CacheState : String := ""
  ConfigRevisions : List ConfigRevisionRef := []
  Conditions : List Condition := []
deriving DecidableEq

/-- The fields of `metav1.ObjectMeta` the reconciler reads and writes. -/
structure ObjectMeta where
  DeletionTimestamp : Option String := none
  Finalizers : List String := []
deriving DecidableEq

/-- Modelled from the spec: the type `NodeConfigCache`, the desired-state
record, declared outside the files at hand. -/
structure NodeConfigCache where
  Spec : NodeConfigCacheSpec
  Status : NodeConfigCacheStatus := {}
  ObjectMeta : ObjectMeta := {}
deriving DecidableEq

/-! ## The desired-state reconciler -/

/-- Modelled from the spec: the type `cacheError`, declared outside the files
at hand: an error wrapped with a category, an operation tag and a message. -/
structure cacheError where
  ErrorType : String
  Operation : String
  Msg : String
deriving DecidableEq

/-- Modelled from the spec: the constructor `newCacheError`, declared outside
the files at hand. -/
def newCacheError (t op msg : String) : cacheError := ⟨t, op, msg⟩

/-- Modelled from the spec: the error category `UnknownError`, declared
outside the files at hand. -/
def UnknownError : String := "Unknown"

/-- What the reconciler needs of the API client when it lists the revisions
of a node: the label under which revisions carry their node id, the
conversion of a label selector (which rejects malformed label values) and the
list call itself. -/
structure RevisionLister where
  nodeIDTag : String
  LabelSelectorAsSelector : List (String × String) → Except String (List (String × String))
  List : List (String × String) → Except String (List NodeConfigRevision)

/-- The test of the inner loop of `getVersionToPublish`: the record `ncr`
has the version of the history entry and is not tainted. -/
def revisionMatches (entry : ConfigRevisionRef) (ncr : NodeConfigRevision) : Bool :=
  entry.Version == ncr.Spec.Version && !IsTrueFor ncr.Status.Conditions RevisionTaintedCondition

/-- The two nested loops of `getVersionToPublish`. The argument is `i + 1`
for the loop index `i`, so that `0` is the exit `i < 0`; the inner loop over
`items` returns on its first hit. -/
def scanRevisions (revs : List ConfigRevisionRef) (items : List NodeConfigRevision) :
    Nat → Option String
  | 0 => none
  | i + 1 =>
    match revs[i]? with
    | some entry =>
      if items.any (revisionMatches entry) then some entry.Version
      else scanRevisions revs items i
    | none => scanRevisions revs items i

/-- The function `getVersionToPublish`: list the revisions of the node, then
scan the history from its highest index down for a version with an untainted
revision; the empty string when there is none. -/
def getVersionToPublish (c : RevisionLister) (ncc : NodeConfigCache) :
    String × Option cacheError :=
  match c.LabelSelectorAsSelector [(c.nodeIDTag, ncc.Spec.NodeID)] with
  | .error err => ("", some (newCacheError UnknownError "deleteUnreferencedRevisions" err))
  | .ok selector =>
    match c.List selector with
    | .error err => ("", some (newCacheError UnknownError "deleteUnreferencedRevisions" err))
    | .ok items =>
      match scanRevisions ncc.Status.ConfigRevisions items ncc.Status.ConfigRevisions.length with
      | some version => (version, none)
      | none => ("", none)

/-- The function `updateStatus`. The record is updated in place, so the
updated record is returned next to the error; `Patch` stands for
`client.Status().Patch`, given the updated record and the copy taken before
the update, and is only called when a version changed. Only its error is
modelled: the server is taken to answer with the record as it was sent. -/
def updateStatus (Patch : NodeConfigCache → NodeConfigCache → Option String)
    (ncc : NodeConfigCache) (desired published : String) : NodeConfigCache × Option String :=
  let patch := ncc
  let (ncc, changed) :=
    if ncc.Status.PublishedVersion != published then
      ({ ncc with Status := { ncc.Status with PublishedVersion := published } }, true)
    else (ncc, false)
  let (ncc, changed) :=
    if ncc.Status.DesiredVersion != desired then
      ({ ncc with Status := { ncc.Status with DesiredVersion := desired } }, true)
    else (ncc, changed)
  let ncc : NodeConfigCache :=
    if desired == published then
      { ncc with Status := { ncc.Status with CacheState := InSyncState } }
    else
      { ncc with Status := { ncc.Status with CacheState := RollbackState } }
  if changed then
    match Patch ncc patch with
    | some err => (ncc, some err)
    | none => (ncc, none)
  else (ncc, none)

/-- The history entry has a revision record of the same version that does not
carry a true `RevisionTainted` condition. -/
def Publishable (items : List NodeConfigRevision) (entry : ConfigRevisionRef) : Prop :=
  ∃ ncr ∈ items, ncr.Spec.Version = entry.Version ∧
    IsTrueFor ncr.Status.Conditions RevisionTaintedCondition = false

/-! ## Errors and field paths (apimachinery) -/

/-- One element of a `field.Path`: a name, or an index when the name is
empty. -/
structure PathElement where
  name : String
  index : String
deriving DecidableEq

/-- A `field.Path`, from the root to the leaf. -/
abbrev Path := List PathElement

/-- The constructor `field.NewPath`. -/
def NewPath (name : String) (moreNames : List String) : Path :=
  ⟨name, ""⟩ :: moreNames.map fun n => ⟨n, ""⟩

/-- The method `Path.Child` with one name. -/
def Path.Child (p : Path) (name : String) : Path := p ++ [⟨name, ""⟩]

/-- The method `Path.Index`. -/
def Path.Index (p : Path) (index : Nat) : Path := p ++ [⟨"", toString index⟩]

/-- Rendering of the elements of a path; `isRoot` tells that the element at
the head has no parent. -/
def Path.render : Bool → List PathElement → String
  | _, [] => ""
  | isRoot, e :: rest =>
    (if !isRoot && e.name != "" then "." else "") ++
      (if e.name != "" then e.name else "[" ++ e.index ++ "]") ++ Path.render false rest

/-- The method `Path.String`. -/
def Path.String (p : Path) : String :=
  if p.isEmpty then "<nil>" else Path.render true p

/-- The rejected value of a `field.Error`, an `interface{}` that holds a
string or a secret reference here. -/
inductive BadValue where
  | value (v : String)
  | ref (r : SecretReference)
deriving DecidableEq

/-- A `field.Error`. -/
structure FieldError where
  Type_ : String
  Field : String
  BadValue : BadValue
  Detail : String
deriving DecidableEq

/-- The value `field.ErrorTypeInvalid`. -/
def ErrorTypeInvalid : String := "FieldValueInvalid"

/-- The constructor `field.Invalid`. -/
def fieldInvalid (field : Path) (value : BadValue) (detail : String) : FieldError :=
  ⟨ErrorTypeInvalid, field.String, value, detail⟩

/-- A `schema.GroupKind`. -/
structure GroupKind where
  Group : String
  Kind : String
deriving DecidableEq

/-- The errors the revision reconciler meets: the API errors it tells apart
(`NotFound`, and `Invalid` as built by `errors.NewInvalid`) and any other. -/
inductive Error where
  | NotFound (msg : String)
  | Invalid (qualifiedKind : GroupKind) (name : String) (errs : List FieldError)
  | Other (msg : String)
deriving DecidableEq

/-- The predicate `errors.IsNotFound`. -/
def IsNotFound : Error → Bool
  | .NotFound _ => true
  | _ => false

/-! ## Snapshots (go-control-plane) -/

/-- The Go type of a decoded resource, on which `setResource` switches;
`Other` is any message type without a case of its own. -/
inductive MessageType where
  | ClusterLoadAssignment
  | Cluster
  | Route
  | Listener
  | Secret
  | Runtime
  | Other
deriving DecidableEq

/-- A `types.Resource`: a protobuf message with its Go type; the content of
the message is kept as text. -/
structure Resource where
  type : MessageType
  message : String
deriving DecidableEq

/-- The index `types.Endpoint` of the snapshot array. -/
def Endpoint : Fin 6 := 0

/-- The index `types.Cluster` of the snapshot array. -/
def Cluster : Fin 6 := 1

/-- The index `types.Route` of the snapshot array. -/
def Route : Fin 6 := 2

/-- The index `types.Listener` of the snapshot array. -/
def Listener : Fin 6 := 3

/-- The index `types.Secret` of the snapshot array. -/
def Secret : Fin 6 := 4

/-- The index `types.Runtime` of the snapshot array. -/
def Runtime : Fin 6 := 5

/-- The type `cache.Resources`: a version and the resources by name. A nil
map and an empty map are both the empty association list. -/
structure Resources where
  Version : String
  Items : AList (fun _ : String => Resource)

/-- The type `cache.Snapshot`: an array of six `Resources`, one per response
type. -/
structure Snapshot where
  Resources : Fin 6 → Resources

/-- The constructor `cache.NewResources` on an empty list of items. -/
def NewResources (version : String) : Resources := ⟨version, ∅⟩

/-- The zero value `Snapshot{}`. -/
def zeroSnapshot : Snapshot := ⟨fun _ => ⟨"", ∅⟩⟩

/-- The function `newNodeSnapshot`: six empty categories with the version. -/
def newNodeSnapshot (_nodeID : String) (version : String) : Snapshot :=
  let snap : Snapshot := ⟨fun _ => ⟨"", ∅⟩⟩
  let snap : Snapshot := ⟨Function.update snap.Resources Listener (NewResources version)⟩
  let snap : Snapshot := ⟨Function.update snap.Resources Endpoint (NewResources version)⟩
  let snap : Snapshot := ⟨Function.update snap.Resources Cluster (NewResources version)⟩
  let snap : Snapshot := ⟨Function.update snap.Resources Route (NewResources version)⟩
  let snap : Snapshot := ⟨Function.update snap.Resources Secret (NewResources version)⟩
  let snap : Snapshot := ⟨Function.update snap.Resources Runtime (NewResources version)⟩
  snap

/-- The assignment `snap.Resources[rtype].Items[name] = o`. -/
def setItem (rtype : Fin 6) (name : String) (o : Resource) (snap : Snapshot) : Snapshot :=
  ⟨Function.update snap.Resources rtype
    { snap.Resources rtype with Items := (snap.Resources rtype).Items.insert name o }⟩

/-- The function `setResource`: a switch on the Go type of the resource. -/
def setResource (name : String) (res : Resource) (snap : Snapshot) : Snapshot :=
  match res.type with
  | .ClusterLoadAssignment => setItem Endpoint name res snap
  | .Cluster => setItem Cluster name res snap
  | .Route => setItem Route name res snap
  | .Listener => setItem Listener name res snap
  | .Secret => setItem Secret name res snap
  | .Runtime => setItem Runtime name res snap
  | .Other => snap

/-- The body of the outer loop of `snapshotIsEqual` for one response type:
the lengths are compared, then every name of the old resources is looked up
in the new ones and the two values are compared with `proto.Equal`, here
`protoEqual`. -/
def resourcesAreEqual (protoEqual : Resource → Resource → Bool)
    (newResources oldResources : Resources) : Bool :=
  if oldResources.Items.entries.length != newResources.Items.entries.length then false
  else
    oldResources.Items.entries.all fun entry =>
      match newResources.Items.lookup entry.1 with
      | none => false
      | some newValue => protoEqual entry.2 newValue

/-- The function `snapshotIsEqual`: the loop over the six response types. -/
def snapshotIsEqual (protoEqual : Resource → Resource → Bool) (newSnap oldSnap : Snapshot) :
    Bool :=
  [Endpoint, Cluster, Route, Listener, Secret, Runtime].all fun rtype =>
    resourcesAreEqual protoEqual (newSnap.Resources rtype) (oldSnap.Resources rtype)

/-! ## The revision reconciler -/

/-- The implementations of `envoy.ResourceUnmarshaller`. -/
inductive ResourceUnmarshaller where
  | JSON
  | B64JSON
  | YAML
deriving DecidableEq

/-- What the reconciler uses of the package `envoy`, which is not among the
files at hand: `Unmarshal` decodes a value into a message of the given Go
type or fails, `NewSecret` builds the secret message from a name, a private
key and a certificate. -/
structure Envoy where
  Unmarshal : ResourceUnmarshaller → String → MessageType → Except String String
  NewSecret : String → String → String → String

/-- A `types.NamespacedName`. -/
structure NamespacedName where
  Namespace : String
  Name : String
deriving DecidableEq

/-- The fields of a `corev1.Secret` the reconciler reads. -/
structure K8sSecret where
  Type_ : String
  Data : AList (fun _ : String => String)

/-- The key of the certificate in the data of a secret. -/
def secretCertificate : String := "tls.crt"

/-- The key of the private key in the data of a secret. -/
def secretPrivateKey : String := "tls.key"

/-- The read `s.Data[key]` converted to a string: empty without the key. -/
def K8sSecret.dataString (s : K8sSecret) (key : String) : String :=
  (s.Data.lookup key).getD ""

/-- The function `resourceLoaderError`. -/
def resourceLoaderError (name namespace_ rtype rvalue : String) (resPath : Path) (idx : Nat) :
    Error :=
  .Invalid ⟨"caches", "NodeCacheConfig"⟩ (namespace_ ++ "/" ++ name)
    [fieldInvalid (((resPath.Child rtype).Index idx).Child "Value") (.value rvalue)
      "Invalid envoy resource value"]

/-- One of the first five loops of `loadResources`, which differ in the
category name `rtype` and in the Go type `t` of the message only: from index
`idx` on, each value is decoded and stored, and the first failure returns. -/
def loadValues (envoy : Envoy) (ds : ResourceUnmarshaller) (name namespace_ rtype : String)
    (t : MessageType) (resPath : Path) :
    List EnvoyResource → Nat → Snapshot → Snapshot × Option Error
  | [], _, snap => (snap, none)
  | r :: rest, idx, snap =>
    match envoy.Unmarshal ds r.Value t with
    | .error _ => (snap, some (resourceLoaderError name namespace_ rtype r.Value resPath idx))
    | .ok res =>
      loadValues envoy ds name namespace_ rtype t resPath rest (idx + 1)
        (setResource r.Name ⟨t, res⟩ snap)

/-- The loop of `loadResources` over the secrets: the credential object is
fetched, and it must be of the type `kubernetes.io/tls`. -/
def loadSecrets (envoy : Envoy) (Get : NamespacedName → Except Error K8sSecret)
    (name namespace_ : String) (resPath : Path) :
    List EnvoySecretResource → Nat → Snapshot → Snapshot × Option Error
  | [], _, snap => (snap, none)
  | secret :: rest, idx, snap =>
    match Get { Name := secret.Ref.Name, Namespace := secret.Ref.Namespace } with
    | .error err => (snap, some err)
    | .ok s =>
      if s.Type_ == "kubernetes.io/tls" then
        let res := envoy.NewSecret secret.Name (s.dataString secretPrivateKey)
          (s.dataString secretCertificate)
        loadSecrets envoy Get name namespace_ resPath rest (idx + 1)
          (setResource secret.Name ⟨.Secret, res⟩ snap)
      else
        (snap, some (.Invalid ⟨"caches", "NodeCacheConfig"⟩ (namespace_ ++ "/" ++ name)
          [fieldInvalid (((resPath.Child "Secrets").Index idx).Child "Ref") (.ref secret.Ref)
            "Only 'kubernetes.io/tls' type secrets allowed"]))

/-- The switch of `loadResources` on the serialization: JSON by default. -/
def selectUnmarshaller (serialization : String) : ResourceUnmarshaller :=
  if serialization == "b64json" then .B64JSON
  else if serialization == "yaml" then .YAML
  else .JSON

/-- The function `loadResources`. The snapshot is filled in place, so the
snapshot as it stands on return is given next to the error. -/
def loadResources (envoy : Envoy) (Get : NamespacedName → Except Error K8sSecret)
    (name namespace_ serialization : String) (resources : EnvoyResources) (resPath : Path)
    (snap : Snapshot) : Snapshot × Option Error :=
  let ds : ResourceUnmarshaller := selectUnmarshaller serialization
  match loadValues envoy ds name namespace_ "Endpoints" .ClusterLoadAssignment resPath
      resources.Endpoints 0 snap with
  | (snap, some err) => (snap, some err)
  | (snap, none) =>
  match loadValues envoy ds name namespace_ "Clusters" .Cluster resPath
      resources.Clusters 0 snap with
  | (snap, some err) => (snap, some err)
  | (snap, none) =>
  match loadValues envoy ds name namespace_ "Routes" .Route resPath
      resources.Routes 0 snap with
  | (snap, some err) => (snap, some err)
  | (snap, none) =>
  match loadValues envoy ds name namespace_ "Listeners" .Listener resPath
      resources.Listeners 0 snap with
  | (snap, some err) => (snap, some err)
  | (snap, none) =>
  match loadValues envoy ds name namespace_ "Runtimes" .Runtime resPath
      resources.Runtimes 0 snap with
  | (snap, some err) => (snap, some err)
  | (snap, none) =>
  loadSecrets envoy Get name namespace_ resPath resources.Secrets 0 snap

/-- The shared snapshot cache: the snapshot of each node, and the record of
the `SetSnapshot` calls made so far, oldest first. `setError` is the error a
`SetSnapshot` call answers with. -/
structure SnapshotCache where
  snapshots : String → Option Snapshot
  setCalls : List (String × Snapshot)
  setError : String → Snapshot → Option Error

/-- The method `GetSnapshot`: the snapshot of the node, or the zero value
and an error without one. -/
def GetSnapshot (cache : SnapshotCache) (node : String) : Snapshot × Option Error :=
  match cache.snapshots node with
  | some snap => (snap, none)
  | none => (zeroSnapshot, some (.Other ("no snapshot found for node " ++ node)))

/-- The method `SetSnapshot`: the entry of the node is overwritten. -/
def SetSnapshot (cache : SnapshotCache) (node : String) (snapshot : Snapshot) :
    SnapshotCache × Option Error :=
  ({ cache with
      snapshots := Function.update cache.snapshots node (some snapshot)
      setCalls := cache.setCalls ++ [(node, snapshot)] },
    cache.setError node snapshot)

/-- What the revision reconciler works on: the revision objects and the
secrets as the API client returns them, and the snapshot cache. -/
structure World where
  revisions : NamespacedName → Except Error NodeConfigRevision
  secrets : NamespacedName → Except Error K8sSecret
  adsCache : SnapshotCache

/-- A `reconcile.Result`; `RequeueAfter` is a duration in nanoseconds. -/
structure Result where
  Requeue : Bool := false
  RequeueAfter : Nat := 0
deriving DecidableEq

/-- The duration `time.Second` in nanoseconds. -/
def Second : Nat := 1000000000

/-- The method `ReconcileNodeConfigRevision.Reconcile`. The world on return
is given next to the result and the error; `none` is the nil dereference of
a revision without resources. -/
def Reconcile (envoy : Envoy) (protoEqual : Resource → Resource → Bool) (w : World)
    (request : NamespacedName) : Option (World × Result × Option Error) :=
  match w.revisions request with
  | .error err =>
    if IsNotFound err then some (w, {}, none)
    else some (w, {}, some err)
  | .ok ncr =>
    if !IsTrueFor ncr.Status.Conditions RevisionPublishedCondition then some (w, {}, none)
    else
      let nodeID := ncr.Spec.NodeID
      let version := ncr.Spec.Version
      let snap := newNodeSnapshot nodeID version
      match ncr.Spec.Resources with
      | none => none
      | some resources =>
        match loadResources envoy w.secrets request.Name request.Namespace
            ncr.Spec.Serialization resources (NewPath "spec" ["resources"]) snap with
        | (_, some err) => some (w, { RequeueAfter := 30 * Second }, some err)
        | (snap, none) =>
          let (oldSnap, _) := GetSnapshot w.adsCache nodeID
          if !snapshotIsEqual protoEqual snap oldSnap then
            match SetSnapshot w.adsCache nodeID snap with
            | (cache, some err) => some ({ w with adsCache := cache }, {}, some err)
            | (cache, none) => some ({ w with adsCache := cache }, {}, none)
          else some (w, {}, none)

/-- Every value of the list decodes into a message of the Go type `t`. -/
def Decodes (envoy : Envoy) (ds : ResourceUnmarshaller) (t : MessageType)
    (rs : List EnvoyResource) : Prop :=
  ∀ r ∈ rs, ∃ res, envoy.Unmarshal ds r.Value t = .ok res

/-- The secret entry refers to an existing credential object of the type
`kubernetes.io/tls`. -/
def RefersToTLS (Get : NamespacedName → Except Error K8sSecret) (secret : EnvoySecretResource) :
    Prop :=
  ∃ s, Get { Name := secret.Ref.Name, Namespace := secret.Ref.Namespace } = .ok s ∧
    s.Type_ = "kubernetes.io/tls"

/-! ## The reconcile of the desired state -/

/-- Modelled from the spec: the constant `NodeConfigCacheFinalizer`, the
finalizer that guarantees the cleanup of the cache, declared outside the
files at hand. -/
def NodeConfigCacheFinalizer : String := "finalizer.marin3r.3scale.net"

/-- Modelled from the spec: the error category `RevisionTaintedError`, which
signals that no untainted revision can be published, declared outside the
files at hand. -/
def RevisionTaintedError : String := "RevisionTainted"

/-- The function `contains`. -/
def contains (list : List String) (s : String) : Bool :=
  list.any fun v => v == s

/-- The function `controllerutil.AddFinalizer`. -/
def AddFinalizer (ncc : NodeConfigCache) (finalizer : String) : NodeConfigCache :=
  if ncc.ObjectMeta.Finalizers.any (fun e => e == finalizer) then ncc
  else { ncc with ObjectMeta :=
    { ncc.ObjectMeta with Finalizers := ncc.ObjectMeta.Finalizers ++ [finalizer] } }

/-- The function `controllerutil.RemoveFinalizer`. -/
def RemoveFinalizer (ncc : NodeConfigCache) (finalizer : String) : NodeConfigCache :=
  { ncc with ObjectMeta :=
    { ncc.ObjectMeta with
      Finalizers := ncc.ObjectMeta.Finalizers.filter fun e => !(e == finalizer) } }

/-- A Go `error` in the desired-state reconciler: a `cacheError`, the only
kind for which the type assertion `err.(cacheError)` holds, an error of the
API server, or any other error. -/
inductive GoError where
  | cache (e : cacheError)
  | api (e : Error)
  | other (msg : String)
deriving DecidableEq

/-- The calls the desired-state reconcile makes to the API server, to the
snapshot cache and to the methods of the reconciler, with their arguments. -/
inductive Call where
  | Get (key : NamespacedName)
  | ClearSnapshot (nodeID : String)
  | Update (ncc : NodeConfigCache)
  | ensureNodeConfigRevision (ncc : NodeConfigCache) (version : String)
  | consolidateRevisionList (ncc : NodeConfigCache) (version : String)
  | getVersionToPublish (ncc : NodeConfigCache)
  | markRevisionPublished (nodeID version reason msg : String)
  | setCacheOutOfSyncCondition (ncc : NodeConfigCache) (reason msg : String)
  | updateStatus (ncc : NodeConfigCache) (desired published : String)
  | deleteUnreferencedRevisions (ncc : NodeConfigCache)
deriving DecidableEq

/-- The call is the status update or the cleanup of unreferenced
revisions. -/
def Call.isStatusUpdateOrCleanup : Call → Bool
  | .updateStatus _ _ _ => true
  | .deleteUnreferencedRevisions _ => true
  | _ => false

/-- The call sets the out-of-sync condition with the given reason. -/
def Call.setsOutOfSync (reason : String) : Call → Bool
  | .setCacheOutOfSyncCondition _ r _ => r == reason
  | _ => false

/-- The reconciler `ReconcileNodeConfigCache` as the reconcile sees it: the
answers of the API client and of the methods that are declared outside the
files at hand, each given the calls made so far. A method that receives the
record by pointer answers with the record as it leaves it. -/
structure ReconcileNodeConfigCache where
  Get : List Call → NamespacedName → Except Error NodeConfigCache
  Update : List Call → NodeConfigCache → Option GoError
  calculateRevisionHash : EnvoyResources → String
  ensureNodeConfigRevision : List Call → NodeConfigCache → String →
    NodeConfigCache × Option GoError
  consolidateRevisionList : List Call → NodeConfigCache → String →
    NodeConfigCache × Option GoError
  lister : List Call → RevisionLister
  markRevisionPublished : List Call → String → String → String → String → Option GoError
  setCacheOutOfSyncCondition : List Call → NodeConfigCache → String → String →
    NodeConfigCache × Option GoError
  Patch : List Call → NodeConfigCache → NodeConfigCache → Option String
  deleteUnreferencedRevisions : List Call → NodeConfigCache → NodeConfigCache × Option GoError

/-- Where the first part of the reconcile ends: with a return, or ready to
determine the version to publish, with the calls made so far, the record and
the desired version. -/
inductive Setup where
  | done (log : List Call) (result : Result) (err : Option GoError)
  | ready (log : List Call) (ncc : NodeConfigCache) (desiredVersion : String)
deriving DecidableEq

/-- The first part of `ReconcileNodeConfigCache.Reconcile`, up to the
consolidation of the revision list: the record is fetched; a record marked
for deletion has the cache entry of its node cleared and its finalizer
removed; otherwise the finalizer is added when missing, the desired version
is computed, its revision is ensured and the revision list consolidated. -/
def ReconcileNodeConfigCache.setup (r : ReconcileNodeConfigCache) (request : NamespacedName) :
    Setup :=
  let log := [Call.Get request]
  match r.Get [] request with
  | .error err =>
    if IsNotFound err then .done log {} none
    else .done log {} (some (.api err))
  | .ok ncc =>
    if ncc.ObjectMeta.DeletionTimestamp.isSome then
      if contains ncc.ObjectMeta.Finalizers NodeConfigCacheFinalizer then
        let log := log ++ [.ClearSnapshot ncc.Spec.NodeID]
        let ncc := RemoveFinalizer ncc NodeConfigCacheFinalizer
        match r.Update log ncc with
        | some err => .done (log ++ [.Update ncc]) {} (some err)
        | none => .done (log ++ [.Update ncc]) {} none
      else .done log {} none
    else
      let added : List Call × NodeConfigCache × Option GoError :=
        if !contains ncc.ObjectMeta.Finalizers NodeConfigCacheFinalizer then
          let ncc := AddFinalizer ncc NodeConfigCacheFinalizer
          (log ++ [.Update ncc], ncc, r.Update log ncc)
        else (log, ncc, none)
      match added with
      | (log, _, some err) => .done log {} (some err)
      | (log, ncc, none) =>
        let desiredVersion := r.calculateRevisionHash ncc.Spec.Resources
        match r.ensureNodeConfigRevision log ncc desiredVersion with
        | (_, some err) => .done (log ++ [.ensureNodeConfigRevision ncc desiredVersion]) {}
            (some err)
        | (ncc', none) =>
          let log := log ++ [.ensureNodeConfigRevision ncc desiredVersion]
          match r.consolidateRevisionList log ncc' desiredVersion with
          | (_, some err) =>
            .done (log ++ [.consolidateRevisionList ncc' desiredVersion]) {} (some err)
          | (ncc'', none) =>
            .ready (log ++ [.consolidateRevisionList ncc' desiredVersion]) ncc'' desiredVersion

/-- The second part of `ReconcileNodeConfigCache.Reconcile`: the version to
publish is determined and its revision marked as published; when that reports
the error of a tainted revision the out-of-sync condition is set and the
reconcile returns; otherwise the status is updated and the unreferenced
revisions are deleted. `none` is the panic of the type assertion on an error
that is not a `cacheError`. -/
def ReconcileNodeConfigCache.publish (r : ReconcileNodeConfigCache) (log : List Call)
    (ncc : NodeConfigCache) (desiredVersion : String) :
    Option (List Call × Result × Option GoError) :=
  match getVersionToPublish (r.lister log) ncc with
  | (_, some err) => some (log ++ [.getVersionToPublish ncc], {}, some (.cache err))
  | (version, none) =>
    let log := log ++ [.getVersionToPublish ncc]
    let msg := "Version '" ++ version ++ "' has been published"
    let marked := r.markRevisionPublished log ncc.Spec.NodeID version "VersionPublished" msg
    let log := log ++ [.markRevisionPublished ncc.Spec.NodeID version "VersionPublished" msg]
    match marked with
    | some (.cache e) =>
      if e.ErrorType == RevisionTaintedError then
        let detail :=
          "The revision thas describes the current spec is tainted due to detected failures"
        match r.setCacheOutOfSyncCondition log ncc "DesiredRevisionTainted" detail with
        | (_, some err) =>
          some (log ++ [.setCacheOutOfSyncCondition ncc "DesiredRevisionTainted" detail], {},
            some err)
        | (_, none) =>
          some (log ++ [.setCacheOutOfSyncCondition ncc "DesiredRevisionTainted" detail], {},
            none)
      else some (log, {}, some (.cache e))
    | some _ => none
    | none =>
      match updateStatus (r.Patch log) ncc desiredVersion version with
      | (_, some err) =>
        some (log ++ [.updateStatus ncc desiredVersion version], {}, some (.other err))
      | (ncc', none) =>
        let log := log ++ [.updateStatus ncc desiredVersion version]
        match r.deleteUnreferencedRevisions log ncc' with
        | (_, some err) => some (log ++ [.deleteUnreferencedRevisions ncc'], {}, some err)
        | (_, none) => some (log ++ [.deleteUnreferencedRevisions ncc'], {}, none)

/-- The method `ReconcileNodeConfigCache.Reconcile`: its first part, and its
second part when the first does not return. The calls made are given next to
the result and the error. -/
def ReconcileNodeConfigCache.Reconcile (r : ReconcileNodeConfigCache)
    (request : NamespacedName) : Option (List Call × Result × Option GoError) :=
  match r.setup request with
  | .done log result err => some (log, result, err)
  | .ready log ncc desiredVersion => r.publish log ncc desiredVersion

/-! ## The value loops as one list -/

/-- One step of the first five loops of `loadResources`: the category name
handed to `resourceLoaderError`, the Go type of the message, the index of the
entry in the list of its category, and the entry. -/
structure ValueEntry where
  rtype : String
  type : MessageType
  idx : Nat
  resource : EnvoyResource
deriving DecidableEq

/-- The steps of the loop over one category, from index `idx` on. -/
def categoryEntries (rtype : String) (t : MessageType) :
    List EnvoyResource → Nat → List ValueEntry
  | [], _ => []
  | r :: rest, idx => ⟨rtype, t, idx, r⟩ :: categoryEntries rtype t rest (idx + 1)

/-- The steps of the first five loops of `loadResources` in the order in
which they run: endpoints, clusters, routes, listeners, runtimes, each by
ascending index. -/
def valueEntries (resources : EnvoyResources) : List ValueEntry :=
  categoryEntries "Endpoints" .ClusterLoadAssignment resources.Endpoints 0 ++
    (categoryEntries "Clusters" .Cluster resources.Clusters 0 ++
      (categoryEntries "Routes" .Route resources.Routes 0 ++
        (categoryEntries "Listeners" .Listener resources.Listeners 0 ++
          categoryEntries "Runtimes" .Runtime resources.Runtimes 0)))

/-- The list of the specification that a category name stands for. -/
def categoryValues (resources : EnvoyResources) (rtype : String) : List EnvoyResource :=
  if rtype = "Endpoints" then resources.Endpoints
  else if rtype = "Clusters" then resources.Clusters
  else if rtype = "Routes" then resources.Routes
  else if rtype = "Listeners" then resources.Listeners
  else if rtype = "Runtimes" then resources.Runtimes
  else []

/-- The body of the value loops run over a list of steps: each value is
decoded and stored, and the first failure returns. -/
def loadEntries (envoy : Envoy) (ds : ResourceUnmarshaller) (name namespace_ : String)
    (resPath : Path) : List ValueEntry → Snapshot → Snapshot × Option Error
  | [], snap => (snap, none)
  | e :: rest, snap =>
    match envoy.Unmarshal ds e.resource.Value e.type with
    | .error _ =>
      (snap, some (resourceLoaderError name namespace_ e.rtype e.resource.Value resPath e.idx))
    | .ok res =>
      loadEntries envoy ds name namespace_ resPath rest
        (setResource e.resource.Name ⟨e.type, res⟩ snap)

/-- The value of the step does not decode into a message of its Go type. -/
def FailsToDecode (envoy : Envoy) (ds : ResourceUnmarshaller) (e : ValueEntry) : Prop :=
  ∃ msg, envoy.Unmarshal ds e.resource.Value e.type = .error msg

/-- The index of the snapshot array under which `setResource` stores a
message of the given Go type, if it stores it at all. -/
def slotOf : MessageType → Option (Fin 6)
  | .ClusterLoadAssignment => some Endpoint
  | .Cluster => some Cluster
  | .Route => some Route
  | .Listener => some Listener
  | .Secret => some Secret
  | .Runtime => some Runtime
  | .Other => none

/-- Every resource of the snapshot is of the Go type of the category that
holds it. -/
def WellSorted (snap : Snapshot) : Prop :=
  ∀ (rtype : Fin 6) (name : String) (res : Resource),
    (snap.Resources rtype).Items.lookup name = some res → slotOf res.type = some rtype

/-- The names the specification declares for a category of the snapshot. -/
def declaredNames (resources : EnvoyResources) (rtype : Fin 6) : List String :=
  if rtype = Endpoint then resources.Endpoints.map (·.Name)
  else if rtype = Cluster then resources.Clusters.map (·.Name)
  else if rtype = Route then resources.Routes.map (·.Name)
  else if rtype = Listener then resources.Listeners.map (·.Name)
  else if rtype = Secret then resources.Secrets.map (·.Name)
  else resources.Runtimes.map (·.Name)

/-- The snapshot with its version tags replaced by `versions` and its items
kept. -/
def retag (versions : Fin 6 → String) (snap : Snapshot) : Snapshot :=
  ⟨fun rtype => ⟨versions rtype, (snap.Resources rtype).Items⟩⟩

/-! ## Sample data -/

/-- A true `RevisionTainted` condition. -/
def taintedCondition : Condition := ⟨"RevisionTainted", "True", "", ""⟩

/-- An untainted revision of node `node1` with version `v1`. -/
def sampleRevisionV1 : NodeConfigRevision := { Spec := { NodeID := "node1", Version := "v1" } }

/-- A tainted revision of node `node1` with version `v2`. -/
def sampleRevisionV2 : NodeConfigRevision :=
  { Spec := { NodeID := "node1", Version := "v2" }, Status := { Conditions := [taintedCondition] } }

/-- An untainted revision of node `node1` whose version is the empty string. -/
def sampleRevisionEmpty : NodeConfigRevision := { Spec := { NodeID := "node1", Version := "" } }

/-- A client whose list call answers with `items`. -/
def sampleLister (items : List NodeConfigRevision) : RevisionLister :=
  ⟨"marin3r.3scale.net/node-id", fun labels => .ok labels, fun _ => .ok items⟩

/-- A desired-state record of node `node1` with the history `v1, v2`. -/
def sampleCache : NodeConfigCache :=
  { Spec := { NodeID := "node1" },
    Status := { ConfigRevisions := [{ Version := "v1" }, { Version := "v2" }] } }

/-- A desired-state record of node `node1` whose only history entry has the
empty version. -/
def sampleCacheEmpty : NodeConfigCache :=
  { Spec := { NodeID := "node1" }, Status := { ConfigRevisions := [{ Version := "" }] } }

/-- A decoded listener. -/
def sampleListener : Resource := ⟨.Listener, "listener L1"⟩

/-- The snapshot of version `v1` with the listener `L1` and nothing else. -/
def sampleSnapshot : Snapshot :=
  setResource "L1" sampleListener (newNodeSnapshot "node1" "v1")

/-- Equality of resources as equality of their type and content. -/
def sampleProtoEqual (x y : Resource) : Bool := decide (x = y)

/-- A decoder that rejects the value `bad` and takes any other value as the
message, and a secret constructor that joins its three arguments. -/
def sampleEnvoy : Envoy :=
  ⟨fun _ value _ => if value == "bad" then .error "syntax error" else .ok value,
    fun name key cert => name ++ ":" ++ key ++ ":" ++ cert⟩

/-- The key of the revision object under reconciliation. -/
def sampleRequest : NamespacedName := ⟨"default", "node1-v1"⟩

/-- A true `RevisionPublished` condition. -/
def publishedCondition : Condition := ⟨"RevisionPublished", "True", "", ""⟩

/-- A revision selected for publication with the single listener `L1`. -/
def samplePublishedRevision : NodeConfigRevision :=
  { Spec := { NodeID := "node1", Version := "v1",
              Resources := some { Listeners := [⟨"L1", "listener L1"⟩] } },
    Status := { Conditions := [publishedCondition] } }

/-- A revision selected for publication whose endpoint does not decode. -/
def sampleBadRevision : NodeConfigRevision :=
  { Spec := { NodeID := "node1", Version := "v2",
              Resources := some { Endpoints := [⟨"E1", "bad"⟩] } },
    Status := { Conditions := [publishedCondition] } }

/-- Two credential objects in the namespace `default`: `tls-cert` of the TLS
type and `opaque` of another type. -/
def sampleSecrets (key : NamespacedName) : Except Error K8sSecret :=
  if key = ⟨"default", "tls-cert"⟩ then
    .ok ⟨"kubernetes.io/tls", (AList.singleton "tls.key" "KEY").insert "tls.crt" "CERT"⟩
  else if key = ⟨"default", "opaque"⟩ then .ok ⟨"Opaque", ∅⟩
  else .error (.NotFound "secret not found")

/-- A specification with two secrets, the second of which refers to the
credential object that is not of the TLS type. -/
def sampleSecretResources : EnvoyResources :=
  { Listeners := [⟨"L1", "listener L1"⟩],
    Secrets := [⟨"s0", ⟨"tls-cert", "default"⟩⟩, ⟨"s1", ⟨"opaque", "default"⟩⟩] }

/-- A snapshot cache without any snapshot. -/
def emptyCache : SnapshotCache := ⟨fun _ => none, [], fun _ _ => none⟩

/-- A snapshot cache that holds the snapshot `snap` for the node `node1`. -/
def cacheWith (snap : Snapshot) : SnapshotCache :=
  ⟨fun node => if node = "node1" then some snap else none, [], fun _ _ => none⟩

/-- A world with the one revision object `ncr` under the key `sampleRequest`. -/
def sampleWorld (ncr : NodeConfigRevision) (cache : SnapshotCache) : World :=
  ⟨fun key => if key = sampleRequest then .ok ncr else .error (.NotFound "revision not found"),
    sampleSecrets, cache⟩

/-- A revision that is not selected for publication: its `Published` field
is true, but it has no `RevisionPublished` condition; its resources are nil. -/
def sampleUnselectedRevision : NodeConfigRevision :=
  { Spec := { NodeID := "node1", Version := "v1" }, Status := { Published := true } }

/-- A specification whose first value that does not decode is the cluster
at index 1; a later cluster and the listener do not decode either. -/
def sampleFailingResources : EnvoyResources :=
  { Endpoints := [⟨"E0", "endpoint E0"⟩],
    Clusters := [⟨"C0", "cluster C0"⟩, ⟨"C1", "bad"⟩, ⟨"C2", "bad"⟩],
    Listeners := [⟨"L0", "bad"⟩] }

/-- The snapshot of the older version `v0` with the listener `L1` and nothing
else. -/
def sampleOldSnapshot : Snapshot :=
  setResource "L1" sampleListener (newNodeSnapshot "node1" "v0")

/-- A revision selected for publication that declares no resources. -/
def sampleEmptyRevision : NodeConfigRevision :=
  { Spec := { NodeID := "node1", Version := "v1", Resources := some ⟨[], [], [], [], [], []⟩ },
    Status := { Conditions := [publishedCondition] } }

/-- A desired-state record of node `node1` that carries the finalizer and
whose only history entry is `v2`. -/
def sampleTaintedCache : NodeConfigCache :=
  { Spec := { NodeID := "node1" },
    Status := { ConfigRevisions := [{ Version := "v2" }] },
    ObjectMeta := { Finalizers := [NodeConfigCacheFinalizer] } }

/-- A reconciler whose only revision, of version `v2`, is tainted, whose
`markRevisionPublished` reports the error of a tainted revision for the empty
version, and whose `setCacheOutOfSyncCondition` answers with `setError`. -/
def sampleReconciler (setError : Option GoError) : ReconcileNodeConfigCache :=
  { Get := fun _ _ => .ok sampleTaintedCache
    Update := fun _ _ => none
    calculateRevisionHash := fun _ => "v2"
    ensureNodeConfigRevision := fun _ ncc _ => (ncc, none)
    consolidateRevisionList := fun _ ncc _ => (ncc, none)
    lister := fun _ => sampleLister [sampleRevisionV2]
    markRevisionPublished := fun _ _ version _ _ =>
      if version == "" then
        some (.cache ⟨RevisionTaintedError, "markRevisionPublished", "no untainted revision"⟩)
      else none
    setCacheOutOfSyncCondition := fun _ ncc _ _ => (ncc, setError)
    Patch := fun _ _ _ => none
    deleteUnreferencedRevisions := fun _ ncc => (ncc, none) }

/-! ## Revision selection -/

theorem any_revisionMatches_iff (items : List NodeConfigRevision) (entry : ConfigRevisionRef) :
    items.any (revisionMatches entry) = true ↔ Publishable items entry := by
  simp only [List.any_eq_true, Publishable, revisionMatches, Bool.and_eq_true, beq_iff_eq,
    Bool.not_eq_true']
  constructor
  · rintro ⟨ncr, hmem, hv, ht⟩
    exact ⟨ncr, hmem, hv.symm, ht⟩
  · rintro ⟨ncr, hmem, hv, ht⟩
    exact ⟨ncr, hmem, hv.symm, ht⟩

theorem scanRevisions_eq_none (revs : List ConfigRevisionRef) (items : List NodeConfigRevision)
    (n : Nat) :
    scanRevisions revs items n = none ↔
      ∀ i e, i < n → revs[i]? = some e → ¬ Publishable items e := by
  induction n with
  | zero => simp [scanRevisions]
  | succ k ih =>
    unfold scanRevisions
    cases hk : revs[k]? with
    | none =>
      simp only [ih]
      constructor
      · intro h i e hi he
        rcases Nat.lt_succ_iff_lt_or_eq.mp hi with hlt | rfl
        · exact h i e hlt he
        · rw [hk] at he; cases he
      · intro h i e hi he
        exact h i e (Nat.lt_succ_of_lt hi) he
    | some entry =>
      by_cases hm : items.any (revisionMatches entry) = true
      · simp only [if_pos hm]
        constructor
        · intro h; cases h
        · intro h
          exact absurd ((any_revisionMatches_iff items entry).mp hm) (h k entry (Nat.lt_succ_self k) hk)
      · simp only [if_neg hm, ih]
        constructor
        · intro h i e hi he
          rcases Nat.lt_succ_iff_lt_or_eq.mp hi with hlt | rfl
          · exact h i e hlt he
          · rw [hk] at he
            cases he
            exact fun hp => hm ((any_revisionMatches_iff items entry).mpr hp)
        · intro h i e hi he
          exact h i e (Nat.lt_succ_of_lt hi) he

theorem scanRevisions_eq_some (revs : List ConfigRevisionRef) (items : List NodeConfigRevision)
    (n : Nat) (v : String) (h : scanRevisions revs items n = some v) :
    ∃ i entry, i < n ∧ revs[i]? = some entry ∧ Publishable items entry ∧ v = entry.Version ∧
      ∀ j e, i < j → j < n → revs[j]? = some e → ¬ Publishable items e := by
  induction n with
  | zero => simp [scanRevisions] at h
  | succ k ih =>
    unfold scanRevisions at h
    have step : scanRevisions revs items k = some v →
        (∀ e, revs[k]? = some e → ¬ Publishable items e) →
        ∃ i entry, i < k + 1 ∧ revs[i]? = some entry ∧ Publishable items entry ∧
          v = entry.Version ∧
          ∀ j e, i < j → j < k + 1 → revs[j]? = some e → ¬ Publishable items e := by
      intro hs hk
      obtain ⟨i, entry, hi, he, hp, hv, hrest⟩ := ih hs
      refine ⟨i, entry, Nat.lt_succ_of_lt hi, he, hp, hv, ?_⟩
      intro j e hij hj hje
      rcases Nat.lt_succ_iff_lt_or_eq.mp hj with hlt | rfl
      · exact hrest j e hij hlt hje
      · exact hk e hje
    cases hk : revs[k]? with
    | none =>
      rw [hk] at h
      exact step h (fun e he => by rw [hk] at he; cases he)
    | some entry =>
      rw [hk] at h
      by_cases hm : items.any (revisionMatches entry) = true
      · simp only [if_pos hm, Option.some.injEq] at h
        subst h
        refine ⟨k, entry, Nat.lt_succ_self k, hk, (any_revisionMatches_iff items entry).mp hm,
          rfl, ?_⟩
        intro j e hkj hj _
        omega
      · simp only [if_neg hm] at h
        refine step h ?_
        intro e he hp
        rw [hk] at he
        cases he
        exact hm ((any_revisionMatches_iff items entry).mpr hp)

theorem getVersionToPublish_of_list (c : RevisionLister) (ncc : NodeConfigCache)
    (selector : List (String × String)) (items : List NodeConfigRevision)
    (hsel : c.LabelSelectorAsSelector [(c.nodeIDTag, ncc.Spec.NodeID)] = .ok selector)
    (hlist : c.List selector = .ok items) :
    getVersionToPublish c ncc =
      match scanRevisions ncc.Status.ConfigRevisions items ncc.Status.ConfigRevisions.length with
      | some version => (version, none)
      | none => ("", none) := by
  simp only [getVersionToPublish, hsel, hlist]

theorem getVersionToPublish_none_of_all_unpublishable (c : RevisionLister)
    (ncc : NodeConfigCache) (selector : List (String × String))
    (items : List NodeConfigRevision)
    (hsel : c.LabelSelectorAsSelector [(c.nodeIDTag, ncc.Spec.NodeID)] = .ok selector)
    (hlist : c.List selector = .ok items)
    (hall : ∀ entry ∈ ncc.Status.ConfigRevisions, ¬ Publishable items entry) :
    getVersionToPublish c ncc = ("", none) := by
  rw [getVersionToPublish_of_list c ncc selector items hsel hlist]
  have hnone : scanRevisions ncc.Status.ConfigRevisions items
      ncc.Status.ConfigRevisions.length = none := by
    rw [scanRevisions_eq_none]
    intro i e _ he
    exact hall e (List.getElem?_mem he)
  rw [hnone]

/-- C1: when some history entry has a revision record of its version that is
not tainted, `getVersionToPublish` returns without error the version of the
entry of highest index that has one; the entries above it, whose record is
missing or tainted, do not stop the scan. -/
theorem getVersionToPublish_highest_untainted (c : RevisionLister) (ncc : NodeConfigCache)
    (selector : List (String × String)) (items : List NodeConfigRevision)
    (hsel : c.LabelSelectorAsSelector [(c.nodeIDTag, ncc.Spec.NodeID)] = .ok selector)
    (hlist : c.List selector = .ok items)
    (hex : ∃ entry ∈ ncc.Status.ConfigRevisions, Publishable items entry) :
    ∃ i entry, ncc.Status.ConfigRevisions[i]? = some entry ∧ Publishable items entry ∧
      (∀ (j : Nat) e, i < j → ncc.Status.ConfigRevisions[j]? = some e →
        ¬ Publishable items e) ∧
      getVersionToPublish c ncc = (entry.Version, none) := by
  rw [getVersionToPublish_of_list c ncc selector items hsel hlist]
  cases hs : scanRevisions ncc.Status.ConfigRevisions items
      ncc.Status.ConfigRevisions.length with
  | none =>
    exfalso
    obtain ⟨entry, hmem, hp⟩ := hex
    obtain ⟨i, hi, rfl⟩ := List.getElem_of_mem hmem
    exact (scanRevisions_eq_none _ _ _).mp hs i _ hi (List.getElem?_eq_getElem hi) hp
  | some v =>
    obtain ⟨i, entry, _, he, hp, hv, hrest⟩ := scanRevisions_eq_some _ _ _ v hs
    refine ⟨i, entry, he, hp, ?_, by rw [hv]⟩
    intro j e hij hje
    have hj : j < ncc.Status.ConfigRevisions.length := by
      by_contra hge
      rw [List.getElem?_eq_none (Nat.le_of_not_lt hge)] at hje
      cases hje
    exact hrest j e hij hj hje

theorem getVersionToPublish_highest_untainted_witness :
    (∃ entry ∈ sampleCache.Status.ConfigRevisions,
        Publishable [sampleRevisionV1, sampleRevisionV2] entry) ∧
      ∃ i entry, sampleCache.Status.ConfigRevisions[i]? = some entry ∧
        Publishable [sampleRevisionV1, sampleRevisionV2] entry ∧
        (∀ (j : Nat) e, i < j → sampleCache.Status.ConfigRevisions[j]? = some e →
          ¬ Publishable [sampleRevisionV1, sampleRevisionV2] e) ∧
        getVersionToPublish (sampleLister [sampleRevisionV1, sampleRevisionV2]) sampleCache =
          (entry.Version, none) :=
  have hex : ∃ entry ∈ sampleCache.Status.ConfigRevisions,
      Publishable [sampleRevisionV1, sampleRevisionV2] entry :=
    ⟨{ Version := "v1" }, by simp [sampleCache], sampleRevisionV1, by simp, rfl, rfl⟩
  ⟨hex, getVersionToPublish_highest_untainted (sampleLister [sampleRevisionV1, sampleRevisionV2])
    sampleCache _ _ rfl rfl hex⟩

/-- C2, as stated, fails where a version is the empty string: the history
entry with the empty version has an untainted revision record, and
`getVersionToPublish` returns the empty version all the same. -/
theorem getVersionToPublish_empty_version_counterexample :
    getVersionToPublish (sampleLister [sampleRevisionEmpty]) sampleCacheEmpty = ("", none) ∧
      ∃ entry ∈ sampleCacheEmpty.Status.ConfigRevisions,
        Publishable [sampleRevisionEmpty] entry :=
  ⟨by decide, { Version := "" }, by simp [sampleCacheEmpty], sampleRevisionEmpty, by simp, rfl, rfl⟩

/-- C2, amended: when no history entry has the empty string as its version,
`getVersionToPublish` returns the empty version only when no history entry
has an untainted revision record of its version; and whenever no entry has
one (whatever the versions) it returns the empty version with a nil error. -/
theorem getVersionToPublish_empty_iff (c : RevisionLister) (ncc : NodeConfigCache)
    (selector : List (String × String)) (items : List NodeConfigRevision)
    (hsel : c.LabelSelectorAsSelector [(c.nodeIDTag, ncc.Spec.NodeID)] = .ok selector)
    (hlist : c.List selector = .ok items) :
    ((∀ entry ∈ ncc.Status.ConfigRevisions, entry.Version ≠ "") →
        (getVersionToPublish c ncc).1 = "" →
        ∀ entry ∈ ncc.Status.ConfigRevisions, ¬ Publishable items entry) ∧
      ((∀ entry ∈ ncc.Status.ConfigRevisions, ¬ Publishable items entry) →
        getVersionToPublish c ncc = ("", none)) := by
  refine ⟨?_, getVersionToPublish_none_of_all_unpublishable c ncc selector items hsel hlist⟩
  intro hne hres entry hmem hp
  obtain ⟨i, e, he, _, _, hget⟩ :=
    getVersionToPublish_highest_untainted c ncc selector items hsel hlist ⟨entry, hmem, hp⟩
  rw [hget] at hres
  exact hne e (List.getElem?_mem he) hres

theorem getVersionToPublish_empty_iff_witness :
    (∀ entry ∈ sampleCache.Status.ConfigRevisions, entry.Version ≠ "") ∧
    (getVersionToPublish (sampleLister [sampleRevisionV2]) sampleCache).1 = "" ∧
    ((∀ entry ∈ sampleCache.Status.ConfigRevisions, entry.Version ≠ "") →
        (getVersionToPublish (sampleLister [sampleRevisionV2]) sampleCache).1 = "" →
        ∀ entry ∈ sampleCache.Status.ConfigRevisions,
          ¬ Publishable [sampleRevisionV2] entry) ∧
      ((∀ entry ∈ sampleCache.Status.ConfigRevisions,
          ¬ Publishable [sampleRevisionV2] entry) →
        getVersionToPublish (sampleLister [sampleRevisionV2]) sampleCache = ("", none)) :=
  ⟨by decide, by decide,
    getVersionToPublish_empty_iff (sampleLister [sampleRevisionV2]) sampleCache _ _ rfl rfl⟩

/-! ## Status update -/

theorem updateStatus_fst (Patch : NodeConfigCache → NodeConfigCache → Option String)
    (ncc : NodeConfigCache) (desired published : String) :
    (updateStatus Patch ncc desired published).1 =
      { ncc with Status := { ncc.Status with
          PublishedVersion := published
          DesiredVersion := desired
          CacheState := if desired = published then InSyncState else RollbackState } } := by
  obtain ⟨spec, ⟨pv, dv, cs, revs, conds⟩, om⟩ := ncc
  by_cases h1 : pv = published <;> by_cases h2 : dv = desired <;>
    by_cases h3 : desired = published <;>
    simp only [updateStatus, bne_iff_ne, ne_eq, h1, h2, h3, not_true_eq_false, not_false_eq_true,
      if_true, if_false, beq_iff_eq] <;>
    (try subst h1) <;> (try subst h2) <;> (try subst h3) <;>
    (repeat (first | rfl | split))

/-- C6: after `updateStatus` the status of the record holds the desired and
the published version it was given, its cache state is `InSync` when the two
are equal and `Rollback` when they differ, and the revision history, the
conditions and the spec of the record are as before. -/
theorem updateStatus_sets_versions_and_state
    (Patch : NodeConfigCache → NodeConfigCache → Option String)
    (ncc : NodeConfigCache) (desired published : String) :
    (updateStatus Patch ncc desired published).1.Status.DesiredVersion = desired ∧
    (updateStatus Patch ncc desired published).1.Status.PublishedVersion = published ∧
    (desired = published →
      (updateStatus Patch ncc desired published).1.Status.CacheState = InSyncState) ∧
    (desired ≠ published →
      (updateStatus Patch ncc desired published).1.Status.CacheState = RollbackState) ∧
    (updateStatus Patch ncc desired published).1.Status.ConfigRevisions =
      ncc.Status.ConfigRevisions ∧
    (updateStatus Patch ncc desired published).1.Status.Conditions = ncc.Status.Conditions ∧
    (updateStatus Patch ncc desired published).1.Spec = ncc.Spec := by
  rw [updateStatus_fst]
  refine ⟨rfl, rfl, ?_, ?_, rfl, rfl, rfl⟩
  · intro h
    simp only [if_pos h]
  · intro h
    simp only [if_neg h]

theorem updateStatus_sets_versions_and_state_witness :
    (updateStatus (fun _ _ => none) sampleCache "v2" "v2").1.Status.DesiredVersion = "v2" ∧
    (updateStatus (fun _ _ => none) sampleCache "v2" "v2").1.Status.PublishedVersion = "v2" ∧
    ("v2" = "v2" →
      (updateStatus (fun _ _ => none) sampleCache "v2" "v2").1.Status.CacheState = InSyncState) ∧
    ("v2" ≠ "v2" →
      (updateStatus (fun _ _ => none) sampleCache "v2" "v2").1.Status.CacheState =
        RollbackState) ∧
    (updateStatus (fun _ _ => none) sampleCache "v2" "v2").1.Status.ConfigRevisions =
      sampleCache.Status.ConfigRevisions ∧
    (updateStatus (fun _ _ => none) sampleCache "v2" "v2").1.Status.Conditions =
      sampleCache.Status.Conditions ∧
    (updateStatus (fun _ _ => none) sampleCache "v2" "v2").1.Spec = sampleCache.Spec :=
  updateStatus_sets_versions_and_state (fun _ _ => none) sampleCache "v2" "v2"

/-- C7: when every revision record with the version of the last history entry
is tainted and the entry before it has an untainted record (so the two
versions differ), `getVersionToPublish` returns the version of the entry
before the last, whatever the length of the history; and `updateStatus` with
the last version as desired and that version as published leaves the record
with the published version of the entry before the last, the desired version
of the last and the cache state `Rollback`, which is not `InSync`. For the
history `V1, V2` this is the rollback from `V2` to `V1`. -/
theorem rollback_to_previous_revision (c : RevisionLister) (ncc : NodeConfigCache)
    (Patch : NodeConfigCache → NodeConfigCache → Option String)
    (selector : List (String × String)) (items : List NodeConfigRevision)
    (older : List ConfigRevisionRef) (prev last : ConfigRevisionRef)
    (hsel : c.LabelSelectorAsSelector [(c.nodeIDTag, ncc.Spec.NodeID)] = .ok selector)
    (hlist : c.List selector = .ok items)
    (hhist : ncc.Status.ConfigRevisions = older ++ [prev, last])
    (htainted : ∀ ncr ∈ items, ncr.Spec.Version = last.Version →
      IsTrueFor ncr.Status.Conditions RevisionTaintedCondition = true)
    (hprev : Publishable items prev) :
    getVersionToPublish c ncc = (prev.Version, none) ∧
    (updateStatus Patch ncc last.Version prev.Version).1.Status.PublishedVersion = prev.Version ∧
    (updateStatus Patch ncc last.Version prev.Version).1.Status.DesiredVersion = last.Version ∧
    (updateStatus Patch ncc last.Version prev.Version).1.Status.CacheState = RollbackState ∧
    RollbackState ≠ InSyncState := by
  have hlast : ¬ Publishable items last := by
    rintro ⟨ncr, hmem, hv, ht⟩
    rw [htainted ncr hmem hv] at ht
    cases ht
  have hne : last.Version ≠ prev.Version := by
    intro heq
    obtain ⟨ncr, hmem, hv, ht⟩ := hprev
    rw [htainted ncr hmem (hv.trans heq.symm)] at ht
    cases ht
  refine ⟨?_, ?_, ?_, ?_, by decide⟩
  · rw [getVersionToPublish_of_list c ncc selector items hsel hlist, hhist]
    have hlen : (older ++ [prev, last]).length = older.length + 1 + 1 := by simp
    have h1 : (older ++ [prev, last])[older.length + 1]? = some last := by
      rw [List.getElem?_append_right (Nat.le_add_right _ _), Nat.add_sub_cancel_left]
      rfl
    have h0 : (older ++ [prev, last])[older.length]? = some prev := by
      rw [List.getElem?_append_right (Nat.le_refl _), Nat.sub_self]
      rfl
    have hm1 : items.any (revisionMatches last) = false := by
      rw [Bool.eq_false_iff]
      exact fun h => hlast ((any_revisionMatches_iff items last).mp h)
    have hm0 : items.any (revisionMatches prev) = true :=
      (any_revisionMatches_iff items prev).mpr hprev
    rw [hlen]
    simp only [scanRevisions, h1, h0, hm1, hm0, if_true, Bool.false_eq_true, if_false]
  · rw [updateStatus_fst]
  · rw [updateStatus_fst]
  · rw [updateStatus_fst]
    simp only [if_neg hne]

theorem rollback_to_previous_revision_witness :
    (∀ ncr ∈ [sampleRevisionV1, sampleRevisionV2], ncr.Spec.Version = "v2" →
      IsTrueFor ncr.Status.Conditions RevisionTaintedCondition = true) ∧
    Publishable [sampleRevisionV1, sampleRevisionV2] { Version := "v1" } ∧
    getVersionToPublish (sampleLister [sampleRevisionV1, sampleRevisionV2]) sampleCache =
      ("v1", none) ∧
    (updateStatus (fun _ _ => none) sampleCache "v2" "v1").1.Status.PublishedVersion = "v1" ∧
    (updateStatus (fun _ _ => none) sampleCache "v2" "v1").1.Status.DesiredVersion = "v2" ∧
    (updateStatus (fun _ _ => none) sampleCache "v2" "v1").1.Status.CacheState =
      RollbackState ∧
    RollbackState ≠ InSyncState :=
  have htainted : ∀ ncr ∈ [sampleRevisionV1, sampleRevisionV2], ncr.Spec.Version = "v2" →
      IsTrueFor ncr.Status.Conditions RevisionTaintedCondition = true := by decide
  have hprev : Publishable [sampleRevisionV1, sampleRevisionV2] { Version := "v1" } :=
    ⟨sampleRevisionV1, by simp, rfl, rfl⟩
  ⟨htainted, hprev,
    rollback_to_previous_revision (sampleLister [sampleRevisionV1, sampleRevisionV2]) sampleCache
      (fun _ _ => none) _ _ [] { Version := "v1" } { Version := "v2" } rfl rfl rfl htainted hprev⟩

/-! ## Snapshot equality -/

theorem resourcesAreEqual_iff (protoEqual : Resource → Resource → Bool)
    (newResources oldResources : Resources) :
    resourcesAreEqual protoEqual newResources oldResources = true ↔
      oldResources.Items.entries.length = newResources.Items.entries.length ∧
      ∀ name oldValue, oldResources.Items.lookup name = some oldValue →
        ∃ newValue, newResources.Items.lookup name = some newValue ∧
          protoEqual oldValue newValue = true := by
  unfold resourcesAreEqual
  by_cases hlen : oldResources.Items.entries.length = newResources.Items.entries.length
  · simp only [hlen, bne_self_eq_false, Bool.false_eq_true, if_false, List.all_eq_true, true_and]
    constructor
    · intro h name oldValue hlook
      have hmem : (⟨name, oldValue⟩ : Sigma fun _ : String => Resource) ∈
          oldResources.Items.entries := AList.mem_lookup_iff.mp hlook
      have := h _ hmem
      cases hn : newResources.Items.lookup name with
      | none => simp only [hn] at this; cases this
      | some newValue =>
        simp only [hn] at this
        exact ⟨newValue, rfl, this⟩
    · intro h entry hmem
      obtain ⟨name, oldValue⟩ := entry
      obtain ⟨newValue, hn, heq⟩ := h name oldValue (AList.mem_lookup_iff.mpr hmem)
      simp only [hn, heq]
  · have hne : (oldResources.Items.entries.length != newResources.Items.entries.length) = true := by
      simpa using hlen
    simp only [hne, if_true, Bool.false_eq_true, false_iff, not_and]
    exact fun h => absurd h hlen

theorem keys_subset_of_length_eq (s t : AList (fun _ : String => Resource))
    (hlen : t.entries.length = s.entries.length) (hsub : ∀ name, name ∈ t → name ∈ s) :
    ∀ name, name ∈ s → name ∈ t := by
  have hsubset : t.keys ⊆ s.keys := fun name h => AList.mem_keys.mp (hsub name (AList.mem_keys.mpr h))
  have hperm : t.keys.Perm s.keys := by
    apply (List.subperm_of_subset t.keys_nodup hsubset).perm_of_length_le
    simp only [AList.keys, List.keys, List.length_map, hlen, le_refl]
  intro name h
  exact AList.mem_keys.mpr ((hperm.mem_iff).mpr (AList.mem_keys.mp h))

theorem resourcesAreEqual_iff_new (protoEqual : Resource → Resource → Bool)
    (newResources oldResources : Resources) :
    resourcesAreEqual protoEqual newResources oldResources = true ↔
      newResources.Items.entries.length = oldResources.Items.entries.length ∧
      ∀ name newValue, newResources.Items.lookup name = some newValue →
        ∃ oldValue, oldResources.Items.lookup name = some oldValue ∧
          protoEqual oldValue newValue = true := by
  rw [resourcesAreEqual_iff]
  constructor
  · rintro ⟨hlen, h⟩
    refine ⟨hlen.symm, ?_⟩
    intro name newValue hn
    have hsub : ∀ k, k ∈ oldResources.Items → k ∈ newResources.Items := by
      intro k hk
      obtain ⟨v, hv⟩ := Option.isSome_iff_exists.mp (AList.lookup_isSome.mpr hk)
      obtain ⟨v2, hv2, _⟩ := h k v hv
      exact AList.lookup_isSome.mp (by rw [hv2]; rfl)
    have hmem : name ∈ oldResources.Items :=
      keys_subset_of_length_eq _ _ hlen hsub name (AList.lookup_isSome.mp (by rw [hn]; rfl))
    obtain ⟨oldValue, ho⟩ := Option.isSome_iff_exists.mp (AList.lookup_isSome.mpr hmem)
    obtain ⟨newValue2, hn2, heq⟩ := h name oldValue ho
    rw [hn] at hn2
    cases hn2
    exact ⟨oldValue, ho, heq⟩
  · rintro ⟨hlen, h⟩
    refine ⟨hlen.symm, ?_⟩
    intro name oldValue ho
    have hsub : ∀ k, k ∈ newResources.Items → k ∈ oldResources.Items := by
      intro k hk
      obtain ⟨v, hv⟩ := Option.isSome_iff_exists.mp (AList.lookup_isSome.mpr hk)
      obtain ⟨v2, hv2, _⟩ := h k v hv
      exact AList.lookup_isSome.mp (by rw [hv2]; rfl)
    have hmem : name ∈ newResources.Items :=
      keys_subset_of_length_eq _ _ hlen hsub name (AList.lookup_isSome.mp (by rw [ho]; rfl))
    obtain ⟨newValue, hn⟩ := Option.isSome_iff_exists.mp (AList.lookup_isSome.mpr hmem)
    obtain ⟨oldValue2, ho2, heq⟩ := h name newValue hn
    rw [ho] at ho2
    cases ho2
    exact ⟨newValue, hn, heq⟩

theorem snapshotIsEqual_iff_forall (protoEqual : Resource → Resource → Bool)
    (newSnap oldSnap : Snapshot) :
    snapshotIsEqual protoEqual newSnap oldSnap = true ↔
      ∀ rtype : Fin 6,
        resourcesAreEqual protoEqual (newSnap.Resources rtype) (oldSnap.Resources rtype) = true := by
  unfold snapshotIsEqual
  rw [List.all_eq_true]
  constructor
  · intro h rtype
    apply h
    fin_cases rtype <;> simp [Endpoint, Cluster, Route, Listener, Secret, Runtime]
  · intro h rtype _
    exact h rtype

/-- C3: `snapshotIsEqual a b` is true exactly when, for each of the six
response types, `a` and `b` hold the same number of named entries and every
name of `a` is in `b` with a value that `proto.Equal` (called on the value of
`b`, then the value of `a`) reports equal; and a name that one snapshot has
and the other lacks, in any response type, makes the result false. -/
theorem snapshotIsEqual_iff (protoEqual : Resource → Resource → Bool) (a b : Snapshot) :
    (snapshotIsEqual protoEqual a b = true ↔
      ∀ rtype : Fin 6,
        (a.Resources rtype).Items.entries.length = (b.Resources rtype).Items.entries.length ∧
        ∀ name va, (a.Resources rtype).Items.lookup name = some va →
          ∃ vb, (b.Resources rtype).Items.lookup name = some vb ∧ protoEqual vb va = true) ∧
    (∀ (rtype : Fin 6) (name : String),
      (name ∈ (a.Resources rtype).Items ∧ name ∉ (b.Resources rtype).Items) ∨
        (name ∉ (a.Resources rtype).Items ∧ name ∈ (b.Resources rtype).Items) →
      snapshotIsEqual protoEqual a b = false) := by
  have hiff : snapshotIsEqual protoEqual a b = true ↔
      ∀ rtype : Fin 6,
        (a.Resources rtype).Items.entries.length = (b.Resources rtype).Items.entries.length ∧
        ∀ name va, (a.Resources rtype).Items.lookup name = some va →
          ∃ vb, (b.Resources rtype).Items.lookup name = some vb ∧ protoEqual vb va = true := by
    rw [snapshotIsEqual_iff_forall]
    exact forall_congr' fun rtype => resourcesAreEqual_iff_new protoEqual _ _
  refine ⟨hiff, ?_⟩
  intro rtype name hname
  rw [Bool.eq_false_iff]
  intro heq
  have hnew := (resourcesAreEqual_iff_new protoEqual _ _).mp
    ((snapshotIsEqual_iff_forall protoEqual a b).mp heq rtype)
  have hold := (resourcesAreEqual_iff protoEqual _ _).mp
    ((snapshotIsEqual_iff_forall protoEqual a b).mp heq rtype)
  rcases hname with ⟨ha, hb⟩ | ⟨ha, hb⟩
  · obtain ⟨va, hva⟩ := Option.isSome_iff_exists.mp (AList.lookup_isSome.mpr ha)
    obtain ⟨vb, hvb, _⟩ := hnew.2 name va hva
    exact hb (AList.lookup_isSome.mp (by rw [hvb]; rfl))
  · obtain ⟨vb, hvb⟩ := Option.isSome_iff_exists.mp (AList.lookup_isSome.mpr hb)
    obtain ⟨va, hva, _⟩ := hold.2 name vb hvb
    exact ha (AList.lookup_isSome.mp (by rw [hva]; rfl))

theorem snapshotIsEqual_iff_witness :
    ("L1" ∈ (sampleSnapshot.Resources Listener).Items ∧
      "L1" ∉ (zeroSnapshot.Resources Listener).Items) ∧
    snapshotIsEqual sampleProtoEqual sampleSnapshot zeroSnapshot = false :=
  have hname : "L1" ∈ (sampleSnapshot.Resources Listener).Items ∧
      "L1" ∉ (zeroSnapshot.Resources Listener).Items :=
    ⟨AList.lookup_isSome.mp (by decide), fun h => by
      have := AList.lookup_isSome.mpr h
      revert this
      decide⟩
  ⟨hname, (snapshotIsEqual_iff sampleProtoEqual sampleSnapshot zeroSnapshot).2 Listener "L1"
    (Or.inl hname)⟩

/-- C4: when the equality of decoded resources is reflexive and symmetric,
`snapshotIsEqual` is reflexive and symmetric. -/
theorem snapshotIsEqual_refl_symm (protoEqual : Resource → Resource → Bool)
    (hrefl : ∀ x, protoEqual x x = true) (hsymm : ∀ x y, protoEqual x y = protoEqual y x) :
    (∀ a, snapshotIsEqual protoEqual a a = true) ∧
    (∀ a b, snapshotIsEqual protoEqual a b = snapshotIsEqual protoEqual b a) := by
  constructor
  · intro a
    rw [snapshotIsEqual_iff_forall]
    intro rtype
    rw [resourcesAreEqual_iff]
    exact ⟨rfl, fun name v hv => ⟨v, hv, hrefl v⟩⟩
  · intro a b
    rw [Bool.eq_iff_iff, snapshotIsEqual_iff_forall, snapshotIsEqual_iff_forall]
    apply forall_congr'
    intro rtype
    rw [resourcesAreEqual_iff, resourcesAreEqual_iff_new]
    apply and_congr Iff.rfl
    apply forall_congr'
    intro name
    apply forall_congr'
    intro v
    apply imp_congr Iff.rfl
    apply exists_congr
    intro v2
    rw [hsymm v v2]

theorem snapshotIsEqual_refl_symm_witness :
    (∀ x, sampleProtoEqual x x = true) ∧
    (∀ x y, sampleProtoEqual x y = sampleProtoEqual y x) ∧
    snapshotIsEqual sampleProtoEqual sampleSnapshot sampleSnapshot = true ∧
    snapshotIsEqual sampleProtoEqual sampleSnapshot zeroSnapshot =
      snapshotIsEqual sampleProtoEqual zeroSnapshot sampleSnapshot :=
  have hrefl : ∀ x, sampleProtoEqual x x = true := fun x => by simp [sampleProtoEqual]
  have hsymm : ∀ x y, sampleProtoEqual x y = sampleProtoEqual y x := fun x y => by
    simp [sampleProtoEqual, eq_comm]
  ⟨hrefl, hsymm,
    (snapshotIsEqual_refl_symm sampleProtoEqual hrefl hsymm).1 sampleSnapshot,
    (snapshotIsEqual_refl_symm sampleProtoEqual hrefl hsymm).2 sampleSnapshot zeroSnapshot⟩

/-! ## The revision reconcile -/

theorem Reconcile_of_load_error (envoy : Envoy) (protoEqual : Resource → Resource → Bool)
    (w : World) (request : NamespacedName) (ncr : NodeConfigRevision)
    (resources : EnvoyResources) (snap : Snapshot) (err : Error)
    (hget : w.revisions request = .ok ncr)
    (hpub : IsTrueFor ncr.Status.Conditions RevisionPublishedCondition = true)
    (hres : ncr.Spec.Resources = some resources)
    (hload : loadResources envoy w.secrets request.Name request.Namespace ncr.Spec.Serialization
      resources (NewPath "spec" ["resources"])
      (newNodeSnapshot ncr.Spec.NodeID ncr.Spec.Version) = (snap, some err)) :
    Reconcile envoy protoEqual w request =
      some (w, { RequeueAfter := 30 * Second }, some err) := by
  simp only [Reconcile, hget, hpub, hres, hload, Bool.not_true, Bool.false_eq_true, if_false]

theorem Reconcile_of_load_equal (envoy : Envoy) (protoEqual : Resource → Resource → Bool)
    (w : World) (request : NamespacedName) (ncr : NodeConfigRevision)
    (resources : EnvoyResources) (snap : Snapshot)
    (hget : w.revisions request = .ok ncr)
    (hpub : IsTrueFor ncr.Status.Conditions RevisionPublishedCondition = true)
    (hres : ncr.Spec.Resources = some resources)
    (hload : loadResources envoy w.secrets request.Name request.Namespace ncr.Spec.Serialization
      resources (NewPath "spec" ["resources"])
      (newNodeSnapshot ncr.Spec.NodeID ncr.Spec.Version) = (snap, none))
    (heq : snapshotIsEqual protoEqual snap (GetSnapshot w.adsCache ncr.Spec.NodeID).1 = true) :
    Reconcile envoy protoEqual w request = some (w, {}, none) := by
  simp only [Reconcile, hget, hpub, hres, hload, heq, Bool.not_true, Bool.false_eq_true,
    if_false]

theorem Reconcile_of_load_unequal (envoy : Envoy) (protoEqual : Resource → Resource → Bool)
    (w : World) (request : NamespacedName) (ncr : NodeConfigRevision)
    (resources : EnvoyResources) (snap : Snapshot)
    (hget : w.revisions request = .ok ncr)
    (hpub : IsTrueFor ncr.Status.Conditions RevisionPublishedCondition = true)
    (hres : ncr.Spec.Resources = some resources)
    (hload : loadResources envoy w.secrets request.Name request.Namespace ncr.Spec.Serialization
      resources (NewPath "spec" ["resources"])
      (newNodeSnapshot ncr.Spec.NodeID ncr.Spec.Version) = (snap, none))
    (hne : snapshotIsEqual protoEqual snap (GetSnapshot w.adsCache ncr.Spec.NodeID).1 = false) :
    Reconcile envoy protoEqual w request =
      some ({ w with adsCache := (SetSnapshot w.adsCache ncr.Spec.NodeID snap).1 }, {},
        w.adsCache.setError ncr.Spec.NodeID snap) := by
  simp only [Reconcile, hget, hpub, hres, hload, hne, Bool.not_true, Bool.false_eq_true,
    if_false, Bool.not_false, if_true, SetSnapshot]
  cases w.adsCache.setError ncr.Spec.NodeID snap <;> rfl

/-- C5: for a revision selected for publication whose resources all load,
the reconcile returns an empty result and leaves the objects of the API
server alone; it calls `SetSnapshot` once, for the node of the revision and
with the snapshot just built, exactly when `snapshotIsEqual` reports that
snapshot unequal to the one `GetSnapshot` answers with, and the cache entry of
the node is then that snapshot; when the two are equal the world, the cache
included, is as before and the error is nil. -/
theorem Reconcile_publishes_iff_unequal (envoy : Envoy)
    (protoEqual : Resource → Resource → Bool)
    (w : World) (request : NamespacedName) (ncr : NodeConfigRevision)
    (resources : EnvoyResources) (snap : Snapshot)
    (hget : w.revisions request = .ok ncr)
    (hpub : IsTrueFor ncr.Status.Conditions RevisionPublishedCondition = true)
    (hres : ncr.Spec.Resources = some resources)
    (hload : loadResources envoy w.secrets request.Name request.Namespace ncr.Spec.Serialization
      resources (NewPath "spec" ["resources"])
      (newNodeSnapshot ncr.Spec.NodeID ncr.Spec.Version) = (snap, none)) :
    ∃ w' err, Reconcile envoy protoEqual w request = some (w', {}, err) ∧
      w'.revisions = w.revisions ∧ w'.secrets = w.secrets ∧
      (w'.adsCache.setCalls = w.adsCache.setCalls ++ [(ncr.Spec.NodeID, snap)] ↔
        snapshotIsEqual protoEqual snap (GetSnapshot w.adsCache ncr.Spec.NodeID).1 = false) ∧
      (snapshotIsEqual protoEqual snap (GetSnapshot w.adsCache ncr.Spec.NodeID).1 = false →
        w'.adsCache.snapshots =
          Function.update w.adsCache.snapshots ncr.Spec.NodeID (some snap)) ∧
      (snapshotIsEqual protoEqual snap (GetSnapshot w.adsCache ncr.Spec.NodeID).1 = true →
        w' = w ∧ err = none) := by
  cases heq : snapshotIsEqual protoEqual snap (GetSnapshot w.adsCache ncr.Spec.NodeID).1 with
  | false =>
    refine ⟨_, _, Reconcile_of_load_unequal envoy protoEqual w request ncr resources snap
      hget hpub hres hload heq, rfl, rfl, ?_, fun _ => rfl, fun h => by cases h⟩
    exact ⟨fun _ => rfl, fun _ => rfl⟩
  | true =>
    refine ⟨_, _, Reconcile_of_load_equal envoy protoEqual w request ncr resources snap
      hget hpub hres hload heq, rfl, rfl, ?_, (fun h => by cases h), fun _ => ⟨rfl, rfl⟩⟩
    constructor
    · intro h
      have hlen := congrArg List.length h
      simp at hlen
    · intro h
      cases h

theorem Reconcile_publishes_iff_unequal_witness :
    (loadResources sampleEnvoy sampleSecrets "node1-v1" "default" "" { Listeners := [⟨"L1", "listener L1"⟩] }
      (NewPath "spec" ["resources"]) (newNodeSnapshot "node1" "v1")).2 = none ∧
    ∃ w' err, Reconcile sampleEnvoy sampleProtoEqual (sampleWorld samplePublishedRevision emptyCache)
        sampleRequest = some (w', {}, err) ∧
      w'.revisions = (sampleWorld samplePublishedRevision emptyCache).revisions ∧
      w'.secrets = sampleSecrets ∧
      (w'.adsCache.setCalls = [] ++ [("node1", (loadResources sampleEnvoy sampleSecrets "node1-v1"
          "default" "" { Listeners := [⟨"L1", "listener L1"⟩] }
          (NewPath "spec" ["resources"]) (newNodeSnapshot "node1" "v1")).1)] ↔
        snapshotIsEqual sampleProtoEqual (loadResources sampleEnvoy sampleSecrets "node1-v1"
          "default" "" { Listeners := [⟨"L1", "listener L1"⟩] }
          (NewPath "spec" ["resources"]) (newNodeSnapshot "node1" "v1")).1
          (GetSnapshot emptyCache "node1").1 = false) ∧
      (snapshotIsEqual sampleProtoEqual (loadResources sampleEnvoy sampleSecrets "node1-v1"
          "default" "" { Listeners := [⟨"L1", "listener L1"⟩] }
          (NewPath "spec" ["resources"]) (newNodeSnapshot "node1" "v1")).1
          (GetSnapshot emptyCache "node1").1 = false →
        w'.adsCache.snapshots = Function.update emptyCache.snapshots "node1"
          (some (loadResources sampleEnvoy sampleSecrets "node1-v1"
          "default" "" { Listeners := [⟨"L1", "listener L1"⟩] }
          (NewPath "spec" ["resources"]) (newNodeSnapshot "node1" "v1")).1)) ∧
      (snapshotIsEqual sampleProtoEqual (loadResources sampleEnvoy sampleSecrets "node1-v1"
          "default" "" { Listeners := [⟨"L1", "listener L1"⟩] }
          (NewPath "spec" ["resources"]) (newNodeSnapshot "node1" "v1")).1
          (GetSnapshot emptyCache "node1").1 = true →
        w' = sampleWorld samplePublishedRevision emptyCache ∧ err = none) :=
  ⟨by decide,
    Reconcile_publishes_iff_unequal sampleEnvoy sampleProtoEqual
      (sampleWorld samplePublishedRevision emptyCache) sampleRequest samplePublishedRevision
      { Listeners := [⟨"L1", "listener L1"⟩] } _ rfl (by decide) rfl
      (Prod.ext rfl (by decide))⟩

/-- C8: for a revision selected for publication whose `loadResources` fails,
whatever the failure, the reconcile returns that error with a result whose
retry delay is 30 seconds (30000000000 nanoseconds) and no immediate requeue,
and the world it returns is the one it was given: the snapshot cache holds the
same snapshots and `SetSnapshot` has not been called. -/
theorem Reconcile_load_failure_not_published (envoy : Envoy)
    (protoEqual : Resource → Resource → Bool)
    (w : World) (request : NamespacedName) (ncr : NodeConfigRevision)
    (resources : EnvoyResources) (snap : Snapshot) (err : Error)
    (hget : w.revisions request = .ok ncr)
    (hpub : IsTrueFor ncr.Status.Conditions RevisionPublishedCondition = true)
    (hres : ncr.Spec.Resources = some resources)
    (hload : loadResources envoy w.secrets request.Name request.Namespace ncr.Spec.Serialization
      resources (NewPath "spec" ["resources"])
      (newNodeSnapshot ncr.Spec.NodeID ncr.Spec.Version) = (snap, some err)) :
    ∃ w', Reconcile envoy protoEqual w request =
        some (w', { Requeue := false, RequeueAfter := 30000000000 }, some err) ∧
      w'.adsCache.setCalls = w.adsCache.setCalls ∧
      w'.adsCache.snapshots = w.adsCache.snapshots ∧
      w' = w :=
  ⟨w, Reconcile_of_load_error envoy protoEqual w request ncr resources snap err
    hget hpub hres hload, rfl, rfl, rfl⟩

theorem Reconcile_load_failure_not_published_witness :
    ∃ w', Reconcile sampleEnvoy sampleProtoEqual (sampleWorld sampleBadRevision emptyCache)
        sampleRequest =
        some (w', { Requeue := false, RequeueAfter := 30000000000 },
          some (.Invalid ⟨"caches", "NodeCacheConfig"⟩ "default/node1-v1"
            [⟨"FieldValueInvalid", "spec.resources.Endpoints[0].Value", .value "bad",
              "Invalid envoy resource value"⟩])) ∧
      w'.adsCache.setCalls = [] ∧
      w'.adsCache.snapshots = emptyCache.snapshots ∧
      w' = sampleWorld sampleBadRevision emptyCache :=
  Reconcile_load_failure_not_published sampleEnvoy sampleProtoEqual
    (sampleWorld sampleBadRevision emptyCache) sampleRequest sampleBadRevision
    { Endpoints := [⟨"E1", "bad"⟩] } _ _ rfl (by decide) rfl (Prod.ext rfl (by decide))

/-- C9, as stated, fails: the endpoint of the revision does not decode, the
reconcile returns the validation error, and the revision object is as it
was, without a true `RevisionTainted` condition and with its `Tainted` field
false. -/
theorem Reconcile_does_not_taint_counterexample :
    ∃ w' result, Reconcile sampleEnvoy sampleProtoEqual
        (sampleWorld sampleBadRevision emptyCache) sampleRequest =
        some (w', result,
          some (.Invalid ⟨"caches", "NodeCacheConfig"⟩ "default/node1-v1"
            [⟨"FieldValueInvalid", "spec.resources.Endpoints[0].Value", .value "bad",
              "Invalid envoy resource value"⟩])) ∧
      ∃ ncr, w'.revisions sampleRequest = .ok ncr ∧
        IsTrueFor ncr.Status.Conditions RevisionTaintedCondition = false ∧
        ncr.Status.Tainted = false :=
  ⟨_, _, Reconcile_of_load_error sampleEnvoy sampleProtoEqual
      (sampleWorld sampleBadRevision emptyCache) sampleRequest sampleBadRevision
      { Endpoints := [⟨"E1", "bad"⟩] } _ _ rfl (by decide) rfl (Prod.ext rfl (by decide)),
    sampleBadRevision, rfl, by decide, rfl⟩

/-- C9, amended: for a revision selected for publication whose
`loadResources` fails, the reconcile returns that error with a result whose
retry delay is 30 seconds (30000000000 nanoseconds) and no immediate requeue,
and leaves the revision object as it read it: it writes nothing to the API
server, which answers for every revision and every secret as it did before,
so the revision read back is the one that was read, with the same
`RevisionTainted` condition and the same `Tainted` field. -/
theorem Reconcile_load_failure_leaves_revision (envoy : Envoy)
    (protoEqual : Resource → Resource → Bool)
    (w : World) (request : NamespacedName) (ncr : NodeConfigRevision)
    (resources : EnvoyResources) (snap : Snapshot) (err : Error)
    (hget : w.revisions request = .ok ncr)
    (hpub : IsTrueFor ncr.Status.Conditions RevisionPublishedCondition = true)
    (hres : ncr.Spec.Resources = some resources)
    (hload : loadResources envoy w.secrets request.Name request.Namespace ncr.Spec.Serialization
      resources (NewPath "spec" ["resources"])
      (newNodeSnapshot ncr.Spec.NodeID ncr.Spec.Version) = (snap, some err)) :
    ∃ w', Reconcile envoy protoEqual w request =
        some (w', { Requeue := false, RequeueAfter := 30000000000 }, some err) ∧
      w'.revisions = w.revisions ∧ w'.secrets = w.secrets ∧
      w'.revisions request = .ok ncr ∧
      ∀ ncr', w'.revisions request = .ok ncr' →
        ncr' = ncr ∧
        IsTrueFor ncr'.Status.Conditions RevisionTaintedCondition =
          IsTrueFor ncr.Status.Conditions RevisionTaintedCondition ∧
        ncr'.Status.Tainted = ncr.Status.Tainted := by
  refine ⟨w, Reconcile_of_load_error envoy protoEqual w request ncr resources snap err
    hget hpub hres hload, rfl, rfl, hget, ?_⟩
  intro ncr' hread
  rw [hget] at hread
  cases hread
  exact ⟨rfl, rfl, rfl⟩

theorem Reconcile_load_failure_leaves_revision_witness :
    ∃ w', Reconcile sampleEnvoy sampleProtoEqual
        (sampleWorld sampleBadRevision emptyCache) sampleRequest =
        some (w', { Requeue := false, RequeueAfter := 30000000000 },
          some (.Invalid ⟨"caches", "NodeCacheConfig"⟩ "default/node1-v1"
            [⟨"FieldValueInvalid", "spec.resources.Endpoints[0].Value", .value "bad",
              "Invalid envoy resource value"⟩])) ∧
      w'.revisions = (sampleWorld sampleBadRevision emptyCache).revisions ∧
      w'.secrets = sampleSecrets ∧
      w'.revisions sampleRequest = .ok sampleBadRevision ∧
      ∀ ncr', w'.revisions sampleRequest = .ok ncr' →
        ncr' = sampleBadRevision ∧
        IsTrueFor ncr'.Status.Conditions RevisionTaintedCondition =
          IsTrueFor sampleBadRevision.Status.Conditions RevisionTaintedCondition ∧
        ncr'.Status.Tainted = sampleBadRevision.Status.Tainted :=
  Reconcile_load_failure_leaves_revision sampleEnvoy sampleProtoEqual
    (sampleWorld sampleBadRevision emptyCache) sampleRequest sampleBadRevision
    { Endpoints := [⟨"E1", "bad"⟩] } _ _ rfl (by decide) rfl (Prod.ext rfl (by decide))

/-! ## Loading the resources -/

theorem loadValues_of_decodes (envoy : Envoy) (ds : ResourceUnmarshaller)
    (name namespace_ rtype : String) (t : MessageType) (resPath : Path)
    (rs : List EnvoyResource) (hdec : Decodes envoy ds t rs) (idx : Nat) (snap : Snapshot) :
    (loadValues envoy ds name namespace_ rtype t resPath rs idx snap).2 = none := by
  induction rs generalizing idx snap with
  | nil => rfl
  | cons r rest ih =>
    obtain ⟨res, hres⟩ := hdec r (List.mem_cons_self r rest)
    simp only [loadValues, hres]
    exact ih (fun r' hr' => hdec r' (List.mem_cons_of_mem r hr')) (idx + 1) _

theorem eq_pair_of_snd_eq_none (p : Snapshot × Option Error) (h : p.2 = none) :
    p = (p.1, none) := by
  obtain ⟨a, b⟩ := p
  cases h
  rfl

theorem loadResources_eq_loadSecrets (envoy : Envoy)
    (Get : NamespacedName → Except Error K8sSecret)
    (name namespace_ serialization : String) (resources : EnvoyResources) (resPath : Path)
    (snap : Snapshot)
    (hE : Decodes envoy (selectUnmarshaller serialization) .ClusterLoadAssignment
      resources.Endpoints)
    (hC : Decodes envoy (selectUnmarshaller serialization) .Cluster resources.Clusters)
    (hR : Decodes envoy (selectUnmarshaller serialization) .Route resources.Routes)
    (hL : Decodes envoy (selectUnmarshaller serialization) .Listener resources.Listeners)
    (hT : Decodes envoy (selectUnmarshaller serialization) .Runtime resources.Runtimes) :
    ∃ loaded : Snapshot, ∀ secrets : List EnvoySecretResource,
      loadResources envoy Get name namespace_ serialization
        { resources with Secrets := secrets } resPath snap =
      loadSecrets envoy Get name namespace_ resPath secrets 0 loaded := by
  refine ⟨(loadValues envoy (selectUnmarshaller serialization) name namespace_ "Runtimes"
    .Runtime resPath resources.Runtimes 0
    (loadValues envoy (selectUnmarshaller serialization) name namespace_ "Listeners"
      .Listener resPath resources.Listeners 0
      (loadValues envoy (selectUnmarshaller serialization) name namespace_ "Routes"
        .Route resPath resources.Routes 0
        (loadValues envoy (selectUnmarshaller serialization) name namespace_ "Clusters"
          .Cluster resPath resources.Clusters 0
          (loadValues envoy (selectUnmarshaller serialization) name namespace_ "Endpoints"
            .ClusterLoadAssignment resPath resources.Endpoints 0 snap).1).1).1).1).1,
    fun secrets => ?_⟩
  unfold loadResources
  simp only []
  rw [eq_pair_of_snd_eq_none _ (loadValues_of_decodes envoy _ name namespace_ "Endpoints" _
    resPath _ hE 0 snap)]
  simp only []
  rw [eq_pair_of_snd_eq_none _ (loadValues_of_decodes envoy _ name namespace_ "Clusters" _
    resPath _ hC 0 _)]
  simp only []
  rw [eq_pair_of_snd_eq_none _ (loadValues_of_decodes envoy _ name namespace_ "Routes" _
    resPath _ hR 0 _)]
  simp only []
  rw [eq_pair_of_snd_eq_none _ (loadValues_of_decodes envoy _ name namespace_ "Listeners" _
    resPath _ hL 0 _)]
  simp only []
  rw [eq_pair_of_snd_eq_none _ (loadValues_of_decodes envoy _ name namespace_ "Runtimes" _
    resPath _ hT 0 _)]

theorem loadSecrets_append_of_tls (envoy : Envoy)
    (Get : NamespacedName → Except Error K8sSecret)
    (name namespace_ : String) (resPath : Path) (before rest : List EnvoySecretResource)
    (hbefore : ∀ s ∈ before, RefersToTLS Get s) (idx : Nat) (snap : Snapshot) :
    (loadSecrets envoy Get name namespace_ resPath before idx snap).2 = none ∧
    loadSecrets envoy Get name namespace_ resPath (before ++ rest) idx snap =
      loadSecrets envoy Get name namespace_ resPath rest (idx + before.length)
        (loadSecrets envoy Get name namespace_ resPath before idx snap).1 := by
  induction before generalizing idx snap with
  | nil => exact ⟨rfl, rfl⟩
  | cons s more ih =>
    obtain ⟨c, hc, htype⟩ := hbefore s (List.mem_cons_self s more)
    have ih' := ih (fun s' hs' => hbefore s' (List.mem_cons_of_mem s hs')) (idx + 1)
      (setResource s.Name ⟨.Secret, envoy.NewSecret s.Name (c.dataString secretPrivateKey)
        (c.dataString secretCertificate)⟩ snap)
    simp only [List.cons_append, loadSecrets, hc, htype, beq_self_eq_true, if_true,
      List.length_cons, List.append_eq]
    refine ⟨ih'.1, ?_⟩
    rw [ih'.2, Nat.add_assoc, Nat.add_comm 1]

/-- C10: when the endpoint, cluster, route, listener and runtime values all
decode, the secret entries before index `i` refer to existing credential
objects of the TLS type and the entry at index `i` refers to an existing
credential object of another type, `loadResources` fails with the `Invalid`
error whose single cause has the field path of `Secrets`, index `i`, `Ref`
under the resource path (`spec.resources.Secrets[i].Ref` for the path the
reconciler passes) and the reference of that entry as its rejected value; the
snapshot it leaves is the one the same specification cut off before entry `i`
loads without error, so nothing is stored for entry `i`. The index `i` is the
length of `before`. -/
theorem loadResources_secret_not_tls (envoy : Envoy)
    (Get : NamespacedName → Except Error K8sSecret)
    (name namespace_ serialization : String) (resources : EnvoyResources) (resPath : Path)
    (snap : Snapshot) (before after : List EnvoySecretResource) (secret : EnvoySecretResource)
    (credential : K8sSecret)
    (hE : Decodes envoy (selectUnmarshaller serialization) .ClusterLoadAssignment
      resources.Endpoints)
    (hC : Decodes envoy (selectUnmarshaller serialization) .Cluster resources.Clusters)
    (hR : Decodes envoy (selectUnmarshaller serialization) .Route resources.Routes)
    (hL : Decodes envoy (selectUnmarshaller serialization) .Listener resources.Listeners)
    (hT : Decodes envoy (selectUnmarshaller serialization) .Runtime resources.Runtimes)
    (hsecrets : resources.Secrets = before ++ secret :: after)
    (hbefore : ∀ s ∈ before, RefersToTLS Get s)
    (hget : Get { Name := secret.Ref.Name, Namespace := secret.Ref.Namespace } = .ok credential)
    (htype : credential.Type_ ≠ "kubernetes.io/tls") :
    loadResources envoy Get name namespace_ serialization resources resPath snap =
      ((loadResources envoy Get name namespace_ serialization
          { resources with Secrets := before } resPath snap).1,
        some (.Invalid ⟨"caches", "NodeCacheConfig"⟩ (namespace_ ++ "/" ++ name)
          [⟨"FieldValueInvalid",
            (((resPath.Child "Secrets").Index before.length).Child "Ref").String,
            .ref secret.Ref, "Only 'kubernetes.io/tls' type secrets allowed"⟩])) ∧
    (loadResources envoy Get name namespace_ serialization
      { resources with Secrets := before } resPath snap).2 = none ∧
    ((((NewPath "spec" ["resources"]).Child "Secrets").Index before.length).Child "Ref").String =
      "spec.resources.Secrets[" ++ toString before.length ++ "].Ref" := by
  obtain ⟨loaded, hloaded⟩ := loadResources_eq_loadSecrets envoy Get name namespace_
    serialization resources resPath snap hE hC hR hL hT
  have hfull : loadResources envoy Get name namespace_ serialization resources resPath snap =
      loadSecrets envoy Get name namespace_ resPath (before ++ secret :: after) 0 loaded := by
    rw [← hloaded, ← hsecrets]
  have hsplit := loadSecrets_append_of_tls envoy Get name namespace_ resPath before
    (secret :: after) hbefore 0 loaded
  have hne : (credential.Type_ == "kubernetes.io/tls") = false := by
    rw [beq_eq_false_iff_ne]
    exact htype
  refine ⟨?_, ?_, ?_⟩
  · rw [hfull, hsplit.2, hloaded before]
    simp only [loadSecrets, hget, hne, Bool.false_eq_true, if_false, Nat.zero_add, fieldInvalid,
      ErrorTypeInvalid]
  · rw [hloaded before]
    exact hsplit.1
  · simp only [Path.String, Path.render, NewPath, Path.Child, Path.Index, List.map_cons,
      List.map_nil, List.cons_append, List.nil_append, List.isEmpty_cons, Bool.false_eq_true,
      if_false, Bool.not_true, Bool.false_and, Bool.not_false, Bool.true_and, bne_iff_ne, ne_eq,
      bne_self_eq_false, String.append_empty, String.empty_append]
    simp only [show ("spec" = "") = False from by decide, show ("resources" = "") = False from by decide,
      show ("Secrets" = "") = False from by decide, show ("Ref" = "") = False from by decide,
      not_false_eq_true, not_true_eq_false, if_true, if_false]
    apply String.ext
    simp only [String.data_append, List.append_assoc]
    rfl

theorem loadResources_secret_not_tls_witness :
    RefersToTLS sampleSecrets ⟨"s0", ⟨"tls-cert", "default"⟩⟩ ∧
    loadResources sampleEnvoy sampleSecrets "node1-v1" "default" "" sampleSecretResources
        (NewPath "spec" ["resources"]) (newNodeSnapshot "node1" "v1") =
      ((loadResources sampleEnvoy sampleSecrets "node1-v1" "default" ""
          { sampleSecretResources with Secrets := [⟨"s0", ⟨"tls-cert", "default"⟩⟩] }
          (NewPath "spec" ["resources"]) (newNodeSnapshot "node1" "v1")).1,
        some (.Invalid ⟨"caches", "NodeCacheConfig"⟩ "default/node1-v1"
          [⟨"FieldValueInvalid", "spec.resources.Secrets[1].Ref", .ref ⟨"opaque", "default"⟩,
            "Only 'kubernetes.io/tls' type secrets allowed"⟩])) ∧
    (loadResources sampleEnvoy sampleSecrets "node1-v1" "default" ""
      { sampleSecretResources with Secrets := [⟨"s0", ⟨"tls-cert", "default"⟩⟩] }
      (NewPath "spec" ["resources"]) (newNodeSnapshot "node1" "v1")).2 = none ∧
    "spec.resources.Secrets[1].Ref" = "spec.resources.Secrets[" ++ toString 1 ++ "].Ref" :=
  have htls : RefersToTLS sampleSecrets ⟨"s0", ⟨"tls-cert", "default"⟩⟩ := ⟨_, rfl, rfl⟩
  ⟨htls,
    loadResources_secret_not_tls sampleEnvoy sampleSecrets "node1-v1" "default" ""
      sampleSecretResources (NewPath "spec" ["resources"]) (newNodeSnapshot "node1" "v1")
      [⟨"s0", ⟨"tls-cert", "default"⟩⟩] [] ⟨"s1", ⟨"opaque", "default"⟩⟩ ⟨"Opaque", ∅⟩
      (fun r hr => by simp [sampleSecretResources] at hr)
      (fun r hr => by simp [sampleSecretResources] at hr)
      (fun r hr => by simp [sampleSecretResources] at hr)
      (fun r hr => by
        simp only [sampleSecretResources, List.mem_singleton] at hr
        subst hr
        exact ⟨"listener L1", rfl⟩)
      (fun r hr => by simp [sampleSecretResources] at hr)
      rfl
      (fun s hs => by
        simp only [List.mem_singleton] at hs
        subst hs
        exact htls)
      rfl (by decide)⟩

/-! ## Revisions that are not selected -/

/-- C12: for a revision whose conditions do not hold `RevisionPublished` as
true, the reconcile returns an empty result and a nil error and the world it
was given; and it does so whatever the snapshot cache holds, whatever the
secrets, the decoders and the equality of resources are, and whatever the
`Published` field and the resources of the revision are (nil included), so
that no snapshot is built and the cache is neither read nor written. -/
theorem Reconcile_noop_when_not_selected (envoy : Envoy)
    (protoEqual : Resource → Resource → Bool) (w : World) (request : NamespacedName)
    (ncr : NodeConfigRevision)
    (hget : w.revisions request = .ok ncr)
    (hnot : IsTrueFor ncr.Status.Conditions RevisionPublishedCondition = false) :
    Reconcile envoy protoEqual w request = some (w, {}, none) ∧
    ∀ (envoy2 : Envoy) (protoEqual2 : Resource → Resource → Bool) (cache : SnapshotCache)
      (secrets : NamespacedName → Except Error K8sSecret) (published : Bool)
      (resources : Option EnvoyResources),
      Reconcile envoy2 protoEqual2
        ⟨Function.update w.revisions request
          (.ok { Spec := { ncr.Spec with Resources := resources },
                 Status := { ncr.Status with Published := published } }),
          secrets, cache⟩ request =
      some (⟨Function.update w.revisions request
          (.ok { Spec := { ncr.Spec with Resources := resources },
                 Status := { ncr.Status with Published := published } }),
          secrets, cache⟩, {}, none) := by
  constructor
  · simp only [Reconcile, hget, hnot, Bool.not_false, if_true]
  · intro envoy2 protoEqual2 cache secrets published resources
    simp only [Reconcile, Function.update_same, hnot, Bool.not_false, if_true]

theorem Reconcile_noop_when_not_selected_witness :
    sampleUnselectedRevision.Status.Published = true ∧
    Reconcile sampleEnvoy sampleProtoEqual
        (sampleWorld sampleUnselectedRevision (cacheWith sampleSnapshot)) sampleRequest =
      some (sampleWorld sampleUnselectedRevision (cacheWith sampleSnapshot), {}, none) ∧
    ∀ (envoy2 : Envoy) (protoEqual2 : Resource → Resource → Bool) (cache : SnapshotCache)
      (secrets : NamespacedName → Except Error K8sSecret) (published : Bool)
      (resources : Option EnvoyResources),
      Reconcile envoy2 protoEqual2
        ⟨Function.update (sampleWorld sampleUnselectedRevision (cacheWith sampleSnapshot)).revisions
          sampleRequest
          (.ok { Spec := { sampleUnselectedRevision.Spec with Resources := resources },
                 Status := { sampleUnselectedRevision.Status with Published := published } }),
          secrets, cache⟩ sampleRequest =
      some (⟨Function.update
          (sampleWorld sampleUnselectedRevision (cacheWith sampleSnapshot)).revisions
          sampleRequest
          (.ok { Spec := { sampleUnselectedRevision.Spec with Resources := resources },
                 Status := { sampleUnselectedRevision.Status with Published := published } }),
          secrets, cache⟩, {}, none) :=
  ⟨rfl, Reconcile_noop_when_not_selected sampleEnvoy sampleProtoEqual
    (sampleWorld sampleUnselectedRevision (cacheWith sampleSnapshot)) sampleRequest
    sampleUnselectedRevision rfl (by decide)⟩

/-! ## The first value that does not decode -/

theorem loadValues_eq_loadEntries (envoy : Envoy) (ds : ResourceUnmarshaller)
    (name namespace_ rtype : String) (t : MessageType) (resPath : Path)
    (rs : List EnvoyResource) (idx : Nat) (snap : Snapshot) :
    loadValues envoy ds name namespace_ rtype t resPath rs idx snap =
      loadEntries envoy ds name namespace_ resPath (categoryEntries rtype t rs idx) snap := by
  induction rs generalizing idx snap with
  | nil => rfl
  | cons r rest ih =>
    simp only [loadValues, categoryEntries, loadEntries]
    cases envoy.Unmarshal ds r.Value t with
    | error msg => rfl
    | ok res => exact ih (idx + 1) _

theorem loadEntries_append (envoy : Envoy) (ds : ResourceUnmarshaller)
    (name namespace_ : String) (resPath : Path) (xs ys : List ValueEntry) (snap : Snapshot) :
    loadEntries envoy ds name namespace_ resPath (xs ++ ys) snap =
      match loadEntries envoy ds name namespace_ resPath xs snap with
      | (s, some err) => (s, some err)
      | (s, none) => loadEntries envoy ds name namespace_ resPath ys s := by
  induction xs generalizing snap with
  | nil => rfl
  | cons x rest ih =>
    simp only [List.cons_append, loadEntries]
    cases envoy.Unmarshal ds x.resource.Value x.type with
    | error msg => rfl
    | ok res => exact ih _

theorem loadResources_eq_loadEntries (envoy : Envoy)
    (Get : NamespacedName → Except Error K8sSecret)
    (name namespace_ serialization : String) (resources : EnvoyResources) (resPath : Path)
    (snap : Snapshot) :
    loadResources envoy Get name namespace_ serialization resources resPath snap =
      match loadEntries envoy (selectUnmarshaller serialization) name namespace_ resPath
          (valueEntries resources) snap with
      | (s, some err) => (s, some err)
      | (s, none) => loadSecrets envoy Get name namespace_ resPath resources.Secrets 0 s := by
  simp only [loadResources, valueEntries, loadValues_eq_loadEntries, loadEntries_append]
  repeat' split
  all_goals simp_all

theorem mem_categoryEntries_iff (rtype : String) (t : MessageType) (rs : List EnvoyResource)
    (idx : Nat) (x : ValueEntry) :
    x ∈ categoryEntries rtype t rs idx ↔
      x.rtype = rtype ∧ x.type = t ∧ ∃ j, x.idx = idx + j ∧ rs[j]? = some x.resource := by
  induction rs generalizing idx with
  | nil => simp [categoryEntries]
  | cons r rest ih =>
    simp only [categoryEntries, List.mem_cons, ih]
    constructor
    · rintro (rfl | ⟨h1, h2, j, hj, hget⟩)
      · exact ⟨rfl, rfl, 0, rfl, by simp⟩
      · exact ⟨h1, h2, j + 1, by omega, by simpa using hget⟩
    · rintro ⟨h1, h2, j, hj, hget⟩
      cases j with
      | zero =>
        left
        obtain ⟨xr, xt, xi, xres⟩ := x
        simp only [List.getElem?_cons_zero, Option.some.injEq] at hget
        simp only at h1 h2 hj
        subst h1 h2 hget
        simp [hj]
      | succ k =>
        right
        exact ⟨h1, h2, k, by omega, by simpa using hget⟩

theorem categoryValues_of_mem_valueEntries (resources : EnvoyResources) (x : ValueEntry)
    (hx : x ∈ valueEntries resources) :
    x.rtype ≠ "" ∧ (categoryValues resources x.rtype)[x.idx]? = some x.resource := by
  simp only [valueEntries, List.mem_append, mem_categoryEntries_iff, Nat.zero_add] at hx
  rcases hx with ⟨h, _, j, hj, hget⟩ | ⟨h, _, j, hj, hget⟩ | ⟨h, _, j, hj, hget⟩ |
    ⟨h, _, j, hj, hget⟩ | ⟨h, _, j, hj, hget⟩ <;>
  · rw [h, hj]
    exact ⟨by decide, by simpa [categoryValues] using hget⟩

theorem exists_first_failure (envoy : Envoy) (ds : ResourceUnmarshaller)
    (entries : List ValueEntry) (h : ∃ e ∈ entries, FailsToDecode envoy ds e) :
    ∃ before e after, entries = before ++ e :: after ∧
      (∀ x ∈ before, ¬ FailsToDecode envoy ds x) ∧ FailsToDecode envoy ds e := by
  induction entries with
  | nil =>
    obtain ⟨e, he, _⟩ := h
    cases he
  | cons x rest ih =>
    by_cases hx : FailsToDecode envoy ds x
    · exact ⟨[], x, rest, rfl, (fun y hy => by cases hy), hx⟩
    · obtain ⟨e, he, hfail⟩ := h
      have hrest : ∃ e ∈ rest, FailsToDecode envoy ds e := by
        rcases List.mem_cons.mp he with rfl | hmem
        · exact absurd hfail hx
        · exact ⟨e, hmem, hfail⟩
      obtain ⟨before, e', after, hsplit, hbefore, he'⟩ := ih hrest
      refine ⟨x :: before, e', after, by rw [hsplit]; rfl, ?_, he'⟩
      intro y hy
      rcases List.mem_cons.mp hy with rfl | hmem
      · exact hx
      · exact hbefore y hmem

theorem loadEntries_first_failure (envoy : Envoy) (ds : ResourceUnmarshaller)
    (name namespace_ : String) (resPath : Path) (before after : List ValueEntry)
    (e : ValueEntry) (snap : Snapshot)
    (hbefore : ∀ x ∈ before, ¬ FailsToDecode envoy ds x) (he : FailsToDecode envoy ds e) :
    loadEntries envoy ds name namespace_ resPath (before ++ e :: after) snap =
      ((loadEntries envoy ds name namespace_ resPath before snap).1,
        some (resourceLoaderError name namespace_ e.rtype e.resource.Value resPath e.idx)) ∧
    (loadEntries envoy ds name namespace_ resPath before snap).2 = none := by
  induction before generalizing snap with
  | nil =>
    obtain ⟨msg, hmsg⟩ := he
    simp only [List.nil_append, loadEntries, hmsg, and_self]
  | cons x rest ih =>
    have hx : ¬ FailsToDecode envoy ds x := hbefore x (List.mem_cons_self x rest)
    cases hdec : envoy.Unmarshal ds x.resource.Value x.type with
    | error msg => exact absurd ⟨msg, hdec⟩ hx
    | ok res =>
      simp only [List.cons_append, loadEntries, hdec]
      exact ih _ (fun y hy => hbefore y (List.mem_cons_of_mem x hy))

theorem valuePath_String (rtype : String) (idx : Nat) (hne : rtype ≠ "") :
    ((((NewPath "spec" ["resources"]).Child rtype).Index idx).Child "Value").String =
      "spec.resources." ++ rtype ++ "[" ++ toString idx ++ "].Value" := by
  simp only [Path.String, Path.render, NewPath, Path.Child, Path.Index, List.map_cons,
    List.map_nil, List.cons_append, List.nil_append, List.isEmpty_cons, Bool.false_eq_true,
    if_false, Bool.not_true, Bool.false_and, Bool.not_false, Bool.true_and, bne_iff_ne, ne_eq,
    bne_self_eq_false, String.append_empty, String.empty_append]
  simp only [show ("spec" = "") = False from by decide,
    show ("resources" = "") = False from by decide,
    show ("Value" = "") = False from by decide, hne,
    not_false_eq_true, not_true_eq_false, if_true, if_false]
  apply String.ext
  simp only [String.data_append, List.append_assoc]
  rfl

/-- C11: when at least one endpoint, cluster, route, listener or runtime
value does not decode, there is a first such entry in the order in which
`loadResources` runs (the list `valueEntries`: endpoints, clusters, routes,
listeners, runtimes, each by ascending index), every entry before it decodes,
and `loadResources` returns the `Invalid` error whose single cause has the
field path of that category, that index and `Value` under the resource path
(`spec.resources.<Category>[index].Value` for the path the reconciler
passes) and the raw value of that entry as its rejected value; the snapshot
it leaves is the one that loading the entries before the failing one gives,
so that no later entry is decoded or stored. -/
theorem loadResources_first_decode_failure (envoy : Envoy)
    (Get : NamespacedName → Except Error K8sSecret)
    (name namespace_ serialization : String) (resources : EnvoyResources) (resPath : Path)
    (snap : Snapshot)
    (hfail : ∃ e ∈ valueEntries resources,
      FailsToDecode envoy (selectUnmarshaller serialization) e) :
    ∃ before e after, valueEntries resources = before ++ e :: after ∧
      (∀ x ∈ before, ¬ FailsToDecode envoy (selectUnmarshaller serialization) x) ∧
      FailsToDecode envoy (selectUnmarshaller serialization) e ∧
      (categoryValues resources e.rtype)[e.idx]? = some e.resource ∧
      loadResources envoy Get name namespace_ serialization resources resPath snap =
        ((loadEntries envoy (selectUnmarshaller serialization) name namespace_ resPath
            before snap).1,
          some (.Invalid ⟨"caches", "NodeCacheConfig"⟩ (namespace_ ++ "/" ++ name)
            [⟨"FieldValueInvalid", (((resPath.Child e.rtype).Index e.idx).Child "Value").String,
              .value e.resource.Value, "Invalid envoy resource value"⟩])) ∧
      (loadEntries envoy (selectUnmarshaller serialization) name namespace_ resPath
        before snap).2 = none ∧
      ((((NewPath "spec" ["resources"]).Child e.rtype).Index e.idx).Child "Value").String =
        "spec.resources." ++ e.rtype ++ "[" ++ toString e.idx ++ "].Value" := by
  obtain ⟨before, e, after, hsplit, hbefore, he⟩ := exists_first_failure envoy _ _ hfail
  have hmem : e ∈ valueEntries resources := by
    rw [hsplit]
    exact List.mem_append_right _ (List.mem_cons_self e after)
  obtain ⟨hne, hpos⟩ := categoryValues_of_mem_valueEntries resources e hmem
  obtain ⟨hload, hok⟩ := loadEntries_first_failure envoy (selectUnmarshaller serialization)
    name namespace_ resPath before after e snap hbefore he
  refine ⟨before, e, after, hsplit, hbefore, he, hpos, ?_, hok, valuePath_String e.rtype e.idx hne⟩
  rw [loadResources_eq_loadEntries, hsplit, hload]
  rfl

theorem loadResources_first_decode_failure_witness :
    (∃ e ∈ valueEntries sampleFailingResources,
      FailsToDecode sampleEnvoy (selectUnmarshaller "") e) ∧
    (loadResources sampleEnvoy sampleSecrets "node1-v1" "default" "" sampleFailingResources
      (NewPath "spec" ["resources"]) (newNodeSnapshot "node1" "v1")).2 =
      some (.Invalid ⟨"caches", "NodeCacheConfig"⟩ "default/node1-v1"
        [⟨"FieldValueInvalid", "spec.resources.Clusters[1].Value", .value "bad",
          "Invalid envoy resource value"⟩]) ∧
    ∃ before e after, valueEntries sampleFailingResources = before ++ e :: after ∧
      (∀ x ∈ before, ¬ FailsToDecode sampleEnvoy (selectUnmarshaller "") x) ∧
      FailsToDecode sampleEnvoy (selectUnmarshaller "") e ∧
      (categoryValues sampleFailingResources e.rtype)[e.idx]? = some e.resource ∧
      loadResources sampleEnvoy sampleSecrets "node1-v1" "default" "" sampleFailingResources
          (NewPath "spec" ["resources"]) (newNodeSnapshot "node1" "v1") =
        ((loadEntries sampleEnvoy (selectUnmarshaller "") "node1-v1" "default"
            (NewPath "spec" ["resources"]) before (newNodeSnapshot "node1" "v1")).1,
          some (.Invalid ⟨"caches", "NodeCacheConfig"⟩ ("default" ++ "/" ++ "node1-v1")
            [⟨"FieldValueInvalid",
              ((((NewPath "spec" ["resources"]).Child e.rtype).Index e.idx).Child "Value").String,
              .value e.resource.Value, "Invalid envoy resource value"⟩])) ∧
      (loadEntries sampleEnvoy (selectUnmarshaller "") "node1-v1" "default"
        (NewPath "spec" ["resources"]) before (newNodeSnapshot "node1" "v1")).2 = none ∧
      ((((NewPath "spec" ["resources"]).Child e.rtype).Index e.idx).Child "Value").String =
        "spec.resources." ++ e.rtype ++ "[" ++ toString e.idx ++ "].Value" :=
  have hfail : ∃ e ∈ valueEntries sampleFailingResources,
      FailsToDecode sampleEnvoy (selectUnmarshaller "") e :=
    ⟨⟨"Clusters", .Cluster, 1, ⟨"C1", "bad"⟩⟩, by decide, "syntax error", rfl⟩
  ⟨hfail, by decide,
    loadResources_first_decode_failure sampleEnvoy sampleSecrets "node1-v1" "default" ""
      sampleFailingResources (NewPath "spec" ["resources"]) (newNodeSnapshot "node1" "v1") hfail⟩

/-! ## What a successful load stores -/

theorem setResource_eq (name : String) (res : Resource) (snap : Snapshot) :
    setResource name res snap =
      match slotOf res.type with
      | some rtype => setItem rtype name res snap
      | none => snap := by
  obtain ⟨t, m⟩ := res
  cases t <;> rfl

theorem setItem_Version (c : Fin 6) (name : String) (o : Resource) (snap : Snapshot)
    (rtype : Fin 6) :
    ((setItem c name o snap).Resources rtype).Version = (snap.Resources rtype).Version := by
  by_cases h : rtype = c
  · subst h
    simp [setItem]
  · simp [setItem, Function.update_noteq h]

theorem setItem_mem (c : Fin 6) (name : String) (o : Resource) (snap : Snapshot)
    (rtype : Fin 6) (k : String) :
    k ∈ ((setItem c name o snap).Resources rtype).Items ↔
      (rtype = c ∧ k = name) ∨ k ∈ (snap.Resources rtype).Items := by
  by_cases h : rtype = c
  · subst h
    simp [setItem, AList.mem_insert]
  · simp [setItem, Function.update_noteq h, h]

theorem setItem_lookup (c : Fin 6) (name : String) (o : Resource) (snap : Snapshot)
    (rtype : Fin 6) (k : String) (v : Resource)
    (hv : ((setItem c name o snap).Resources rtype).Items.lookup k = some v) :
    (rtype = c ∧ v = o) ∨ (snap.Resources rtype).Items.lookup k = some v := by
  by_cases h : rtype = c
  · subst h
    by_cases hk : k = name
    · subst hk
      simp only [setItem, Function.update_same, AList.lookup_insert, Option.some.injEq] at hv
      exact Or.inl ⟨rfl, hv.symm⟩
    · simp only [setItem, Function.update_same, AList.lookup_insert_ne hk] at hv
      exact Or.inr hv
  · simp only [setItem, Function.update_noteq h] at hv
    exact Or.inr hv

theorem setResource_WellSorted (name : String) (res : Resource) (snap : Snapshot)
    (h : WellSorted snap) : WellSorted (setResource name res snap) := by
  rw [setResource_eq]
  cases hs : slotOf res.type with
  | none => exact h
  | some c =>
    intro rtype k v hv
    rcases setItem_lookup c name res snap rtype k v hv with ⟨hc, hvo⟩ | hold
    · rw [hvo, hs, hc]
    · exact h rtype k v hold

theorem setResource_Version (name : String) (res : Resource) (snap : Snapshot) (rtype : Fin 6) :
    ((setResource name res snap).Resources rtype).Version = (snap.Resources rtype).Version := by
  rw [setResource_eq]
  cases slotOf res.type with
  | none => rfl
  | some c => exact setItem_Version c name res snap rtype

theorem setResource_mem (name : String) (res : Resource) (snap : Snapshot) (rtype : Fin 6)
    (k : String) :
    k ∈ ((setResource name res snap).Resources rtype).Items ↔
      (slotOf res.type = some rtype ∧ k = name) ∨ k ∈ (snap.Resources rtype).Items := by
  rw [setResource_eq]
  cases hs : slotOf res.type with
  | none => simp
  | some c =>
    rw [setItem_mem]
    simp only [Option.some.injEq]
    constructor
    · rintro (⟨h1, h2⟩ | h)
      · exact Or.inl ⟨h1.symm, h2⟩
      · exact Or.inr h
    · rintro (⟨h1, h2⟩ | h)
      · exact Or.inl ⟨h1.symm, h2⟩
      · exact Or.inr h

theorem loadEntries_stores (envoy : Envoy) (ds : ResourceUnmarshaller)
    (name namespace_ : String) (resPath : Path) (entries : List ValueEntry)
    (snap loaded : Snapshot)
    (hload : loadEntries envoy ds name namespace_ resPath entries snap = (loaded, none)) :
    (∀ rtype, (loaded.Resources rtype).Version = (snap.Resources rtype).Version) ∧
    (∀ rtype k, k ∈ (loaded.Resources rtype).Items ↔
      (∃ x ∈ entries, slotOf x.type = some rtype ∧ x.resource.Name = k) ∨
        k ∈ (snap.Resources rtype).Items) ∧
    (WellSorted snap → WellSorted loaded) := by
  induction entries generalizing snap with
  | nil =>
    simp only [loadEntries, Prod.mk.injEq, and_true] at hload
    subst hload
    simp
  | cons e rest ih =>
    simp only [loadEntries] at hload
    cases hdec : envoy.Unmarshal ds e.resource.Value e.type with
    | error msg =>
      rw [hdec] at hload
      simp at hload
    | ok res =>
      rw [hdec] at hload
      obtain ⟨hv, hk, hw⟩ := ih _ hload
      refine ⟨?_, ?_, ?_⟩
      · intro rtype
        rw [hv rtype, setResource_Version]
      · intro rtype k
        rw [hk rtype k, setResource_mem, List.exists_mem_cons_iff]
        constructor
        · rintro (h | ⟨h1, h2⟩ | h)
          · exact Or.inl (Or.inr h)
          · exact Or.inl (Or.inl ⟨h1, h2.symm⟩)
          · exact Or.inr h
        · rintro ((⟨h1, h2⟩ | h) | h)
          · exact Or.inr (Or.inl ⟨h1, h2.symm⟩)
          · exact Or.inl h
          · exact Or.inr (Or.inr h)
      · intro hws
        exact hw (setResource_WellSorted _ _ _ hws)

theorem loadSecrets_stores (envoy : Envoy) (Get : NamespacedName → Except Error K8sSecret)
    (name namespace_ : String) (resPath : Path) (secrets : List EnvoySecretResource)
    (idx : Nat) (snap loaded : Snapshot)
    (hload : loadSecrets envoy Get name namespace_ resPath secrets idx snap = (loaded, none)) :
    (∀ rtype, (loaded.Resources rtype).Version = (snap.Resources rtype).Version) ∧
    (∀ rtype k, k ∈ (loaded.Resources rtype).Items ↔
      (rtype = Secret ∧ k ∈ secrets.map (·.Name)) ∨ k ∈ (snap.Resources rtype).Items) ∧
    (WellSorted snap → WellSorted loaded) := by
  induction secrets generalizing idx snap with
  | nil =>
    simp only [loadSecrets, Prod.mk.injEq, and_true] at hload
    subst hload
    simp
  | cons secret rest ih =>
    simp only [loadSecrets] at hload
    cases hget : Get { Name := secret.Ref.Name, Namespace := secret.Ref.Namespace } with
    | error err =>
      rw [hget] at hload
      simp at hload
    | ok credential =>
      rw [hget] at hload
      by_cases htype : (credential.Type_ == "kubernetes.io/tls") = true
      · simp only [htype, if_true] at hload
        obtain ⟨hv, hk, hw⟩ := ih _ _ hload
        refine ⟨?_, ?_, ?_⟩
        · intro rtype
          rw [hv rtype, setResource_Version]
        · intro rtype k
          rw [hk rtype k, setResource_mem]
          simp only [slotOf, Option.some.injEq, List.map_cons, List.mem_cons]
          constructor
          · rintro (⟨h1, h2⟩ | ⟨h1, h2⟩ | h)
            · exact Or.inl ⟨h1, Or.inr h2⟩
            · exact Or.inl ⟨h1.symm, Or.inl h2⟩
            · exact Or.inr h
          · rintro (⟨h1, h2 | h2⟩ | h)
            · exact Or.inr (Or.inl ⟨h1.symm, h2⟩)
            · exact Or.inl ⟨h1, h2⟩
            · exact Or.inr (Or.inr h)
        · intro hws
          exact hw (setResource_WellSorted _ _ _ hws)
      · simp only [htype, if_false] at hload
        simp at hload

theorem exists_mem_categoryEntries (rtype : String) (t : MessageType) (rs : List EnvoyResource)
    (idx : Nat) (c : Fin 6) (k : String) :
    (∃ x ∈ categoryEntries rtype t rs idx, slotOf x.type = some c ∧ x.resource.Name = k) ↔
      slotOf t = some c ∧ k ∈ rs.map (·.Name) := by
  induction rs generalizing idx with
  | nil => simp [categoryEntries]
  | cons r rest ih =>
    rw [categoryEntries, List.exists_mem_cons_iff, ih]
    simp only [List.map_cons, List.mem_cons]
    constructor
    · rintro (⟨h1, h2⟩ | ⟨h1, h2⟩)
      · exact ⟨h1, Or.inl h2.symm⟩
      · exact ⟨h1, Or.inr h2⟩
    · rintro ⟨h1, h2 | h2⟩
      · exact Or.inl ⟨h1, h2.symm⟩
      · exact Or.inr ⟨h1, h2⟩

theorem declaredNames_iff (resources : EnvoyResources) (rtype : Fin 6) (k : String) :
    ((rtype = Secret ∧ k ∈ resources.Secrets.map (·.Name)) ∨
      ∃ x ∈ valueEntries resources, slotOf x.type = some rtype ∧ x.resource.Name = k) ↔
      k ∈ declaredNames resources rtype := by
  have hsplit : (∃ x ∈ valueEntries resources, slotOf x.type = some rtype ∧ x.resource.Name = k) ↔
      (slotOf .ClusterLoadAssignment = some rtype ∧ k ∈ resources.Endpoints.map (·.Name)) ∨
      (slotOf .Cluster = some rtype ∧ k ∈ resources.Clusters.map (·.Name)) ∨
      (slotOf .Route = some rtype ∧ k ∈ resources.Routes.map (·.Name)) ∨
      (slotOf .Listener = some rtype ∧ k ∈ resources.Listeners.map (·.Name)) ∨
      (slotOf .Runtime = some rtype ∧ k ∈ resources.Runtimes.map (·.Name)) := by
    simp only [valueEntries, List.mem_append, or_and_right, exists_or,
      exists_mem_categoryEntries]
  rw [hsplit]
  fin_cases rtype <;>
    simp [declaredNames, slotOf, Endpoint, Cluster, Route, Listener, Secret, Runtime]

theorem loadResources_stores (envoy : Envoy) (Get : NamespacedName → Except Error K8sSecret)
    (name namespace_ serialization : String) (resources : EnvoyResources) (resPath : Path)
    (snap loaded : Snapshot)
    (hload : loadResources envoy Get name namespace_ serialization resources resPath snap =
      (loaded, none)) :
    (∀ rtype, (loaded.Resources rtype).Version = (snap.Resources rtype).Version) ∧
    (∀ rtype k, k ∈ (loaded.Resources rtype).Items ↔
      k ∈ declaredNames resources rtype ∨ k ∈ (snap.Resources rtype).Items) ∧
    (WellSorted snap → WellSorted loaded) := by
  rw [loadResources_eq_loadEntries] at hload
  rcases hvals : loadEntries envoy (selectUnmarshaller serialization) name namespace_ resPath
    (valueEntries resources) snap with ⟨mid, _ | err⟩
  · rw [hvals] at hload
    simp only at hload
    obtain ⟨hv1, hk1, hw1⟩ := loadEntries_stores envoy _ name namespace_ resPath _ snap mid hvals
    obtain ⟨hv2, hk2, hw2⟩ := loadSecrets_stores envoy Get name namespace_ resPath _ 0 mid loaded
      hload
    refine ⟨fun rtype => by rw [hv2, hv1], ?_, fun h => hw2 (hw1 h)⟩
    intro rtype k
    rw [hk2, hk1, ← declaredNames_iff, or_assoc]
  · rw [hvals] at hload
    simp at hload

theorem newNodeSnapshot_Resources (nodeID version : String) (rtype : Fin 6) :
    (newNodeSnapshot nodeID version).Resources rtype = ⟨version, ∅⟩ := by
  fin_cases rtype <;> rfl

theorem newNodeSnapshot_WellSorted (nodeID version : String) :
    WellSorted (newNodeSnapshot nodeID version) := by
  intro rtype name res h
  rw [newNodeSnapshot_Resources] at h
  simp at h

theorem loadResources_ok (envoy : Envoy) (Get : NamespacedName → Except Error K8sSecret)
    (name namespace_ serialization : String) (resources : EnvoyResources) (resPath : Path)
    (snap : Snapshot)
    (hE : Decodes envoy (selectUnmarshaller serialization) .ClusterLoadAssignment
      resources.Endpoints)
    (hC : Decodes envoy (selectUnmarshaller serialization) .Cluster resources.Clusters)
    (hR : Decodes envoy (selectUnmarshaller serialization) .Route resources.Routes)
    (hL : Decodes envoy (selectUnmarshaller serialization) .Listener resources.Listeners)
    (hT : Decodes envoy (selectUnmarshaller serialization) .Runtime resources.Runtimes)
    (hS : ∀ s ∈ resources.Secrets, RefersToTLS Get s) :
    (loadResources envoy Get name namespace_ serialization resources resPath snap).2 = none := by
  obtain ⟨loaded, hloaded⟩ := loadResources_eq_loadSecrets envoy Get name namespace_
    serialization resources resPath snap hE hC hR hL hT
  have h := hloaded resources.Secrets
  have hsame : ({ resources with Secrets := resources.Secrets } : EnvoyResources) = resources := rfl
  rw [hsame] at h
  rw [h]
  have := (loadSecrets_append_of_tls envoy Get name namespace_ resPath resources.Secrets []
    hS 0 loaded).1
  exact this

/-- C14: when every value of the specification decodes and every secret
refers to an existing credential object of the TLS type, `loadResources` on
the snapshot of `newNodeSnapshot nodeID version` succeeds, and in the snapshot
it leaves each of the six categories carries `version` and holds exactly the
names the specification declares for it; every resource in it is of the Go
type of the category that holds it, so none is stored under another
category. -/
theorem loadResources_builds_declared_snapshot (envoy : Envoy)
    (Get : NamespacedName → Except Error K8sSecret)
    (name namespace_ serialization : String) (resources : EnvoyResources) (resPath : Path)
    (nodeID version : String)
    (hE : Decodes envoy (selectUnmarshaller serialization) .ClusterLoadAssignment
      resources.Endpoints)
    (hC : Decodes envoy (selectUnmarshaller serialization) .Cluster resources.Clusters)
    (hR : Decodes envoy (selectUnmarshaller serialization) .Route resources.Routes)
    (hL : Decodes envoy (selectUnmarshaller serialization) .Listener resources.Listeners)
    (hT : Decodes envoy (selectUnmarshaller serialization) .Runtime resources.Runtimes)
    (hS : ∀ s ∈ resources.Secrets, RefersToTLS Get s) :
    ∃ snap, loadResources envoy Get name namespace_ serialization resources resPath
        (newNodeSnapshot nodeID version) = (snap, none) ∧
      (∀ rtype, (snap.Resources rtype).Version = version) ∧
      (∀ k, k ∈ (snap.Resources Listener).Items ↔ k ∈ resources.Listeners.map (·.Name)) ∧
      (∀ k, k ∈ (snap.Resources Cluster).Items ↔ k ∈ resources.Clusters.map (·.Name)) ∧
      (∀ k, k ∈ (snap.Resources Route).Items ↔ k ∈ resources.Routes.map (·.Name)) ∧
      (∀ k, k ∈ (snap.Resources Endpoint).Items ↔ k ∈ resources.Endpoints.map (·.Name)) ∧
      (∀ k, k ∈ (snap.Resources Secret).Items ↔ k ∈ resources.Secrets.map (·.Name)) ∧
      (∀ k, k ∈ (snap.Resources Runtime).Items ↔ k ∈ resources.Runtimes.map (·.Name)) ∧
      WellSorted snap := by
  have hok := loadResources_ok envoy Get name namespace_ serialization resources resPath
    (newNodeSnapshot nodeID version) hE hC hR hL hT hS
  have hpair := eq_pair_of_snd_eq_none _ hok
  obtain ⟨hv, hk, hw⟩ := loadResources_stores envoy Get name namespace_ serialization resources
    resPath (newNodeSnapshot nodeID version) _ hpair
  have hnames : ∀ rtype k,
      k ∈ ((loadResources envoy Get name namespace_ serialization resources resPath
        (newNodeSnapshot nodeID version)).1.Resources rtype).Items ↔
      k ∈ declaredNames resources rtype := by
    intro rtype k
    rw [hk rtype k, newNodeSnapshot_Resources]
    simp
  refine ⟨_, hpair, ?_, hnames Listener, hnames Cluster, hnames Route, hnames Endpoint,
    hnames Secret, hnames Runtime, hw (newNodeSnapshot_WellSorted nodeID version)⟩
  intro rtype
  rw [hv rtype, newNodeSnapshot_Resources]

theorem loadResources_builds_declared_snapshot_witness :
    ((loadResources sampleEnvoy sampleSecrets "node1-v1" "default" ""
        { Listeners := [⟨"L1", "listener L1"⟩] } (NewPath "spec" ["resources"])
        (newNodeSnapshot "node1" "v1")).1.Resources Listener).Items.keys = ["L1"] ∧
    (∀ rtype, rtype ≠ Listener →
      ((loadResources sampleEnvoy sampleSecrets "node1-v1" "default" ""
        { Listeners := [⟨"L1", "listener L1"⟩] } (NewPath "spec" ["resources"])
        (newNodeSnapshot "node1" "v1")).1.Resources rtype).Items.keys = []) ∧
    ∃ snap, loadResources sampleEnvoy sampleSecrets "node1-v1" "default" ""
        { Listeners := [⟨"L1", "listener L1"⟩] } (NewPath "spec" ["resources"])
        (newNodeSnapshot "node1" "v1") = (snap, none) ∧
      (∀ rtype, (snap.Resources rtype).Version = "v1") ∧
      (∀ k, k ∈ (snap.Resources Listener).Items ↔ k ∈ ["L1"]) ∧
      (∀ k, k ∈ (snap.Resources Cluster).Items ↔ k ∈ []) ∧
      (∀ k, k ∈ (snap.Resources Route).Items ↔ k ∈ []) ∧
      (∀ k, k ∈ (snap.Resources Endpoint).Items ↔ k ∈ []) ∧
      (∀ k, k ∈ (snap.Resources Secret).Items ↔ k ∈ []) ∧
      (∀ k, k ∈ (snap.Resources Runtime).Items ↔ k ∈ []) ∧
      WellSorted snap :=
  ⟨by decide, by decide,
    loadResources_builds_declared_snapshot sampleEnvoy sampleSecrets "node1-v1" "default" ""
      { Listeners := [⟨"L1", "listener L1"⟩] } (NewPath "spec" ["resources"]) "node1" "v1"
      (fun r hr => by cases hr)
      (fun r hr => by cases hr)
      (fun r hr => by cases hr)
      (fun r hr => by
        simp only [List.mem_singleton] at hr
        subst hr
        exact ⟨"listener L1", rfl⟩)
      (fun r hr => by cases hr)
      (fun s hs => by cases hs)⟩

/-! ## Snapshots that differ in their version only -/

theorem snapshotIsEqual_retag (protoEqual : Resource → Resource → Bool)
    (versions versions2 : Fin 6 → String) (a b : Snapshot) :
    snapshotIsEqual protoEqual (retag versions a) (retag versions2 b) =
      snapshotIsEqual protoEqual a b := rfl

theorem snapshotIsEqual_of_same_items (protoEqual : Resource → Resource → Bool)
    (a b : Snapshot)
    (hsame : ∀ rtype,
      (a.Resources rtype).Items.entries.length = (b.Resources rtype).Items.entries.length ∧
      ∀ name va, (a.Resources rtype).Items.lookup name = some va →
        ∃ vb, (b.Resources rtype).Items.lookup name = some vb ∧ protoEqual vb va = true) :
    snapshotIsEqual protoEqual a b = true := by
  rw [snapshotIsEqual_iff_forall]
  intro rtype
  rw [resourcesAreEqual_iff_new]
  exact hsame rtype

/-- C15: `snapshotIsEqual` does not look at the version tags: replacing the
versions of both snapshots leaves its result as it is, and two snapshots
whose six categories hold the same names with equal content compare equal
whatever their versions. So when the cache holds, for the node of a revision
selected for publication, a snapshot with the same names and equal content as
the one just built, the reconcile returns the world as it was given, with an
empty result and a nil error: `SetSnapshot` is not called and `GetSnapshot`
still answers with the cached snapshot and its versions. -/
theorem snapshotIsEqual_ignores_versions (envoy : Envoy)
    (protoEqual : Resource → Resource → Bool)
    (w : World) (request : NamespacedName) (ncr : NodeConfigRevision)
    (resources : EnvoyResources) (snap cached : Snapshot)
    (hget : w.revisions request = .ok ncr)
    (hpub : IsTrueFor ncr.Status.Conditions RevisionPublishedCondition = true)
    (hres : ncr.Spec.Resources = some resources)
    (hload : loadResources envoy w.secrets request.Name request.Namespace ncr.Spec.Serialization
      resources (NewPath "spec" ["resources"])
      (newNodeSnapshot ncr.Spec.NodeID ncr.Spec.Version) = (snap, none))
    (hcached : w.adsCache.snapshots ncr.Spec.NodeID = some cached)
    (hsame : ∀ rtype,
      (snap.Resources rtype).Items.entries.length =
        (cached.Resources rtype).Items.entries.length ∧
      ∀ name v, (snap.Resources rtype).Items.lookup name = some v →
        ∃ v', (cached.Resources rtype).Items.lookup name = some v' ∧ protoEqual v' v = true) :
    (∀ (a b : Snapshot) (versions versions2 : Fin 6 → String),
      snapshotIsEqual protoEqual (retag versions a) (retag versions2 b) =
        snapshotIsEqual protoEqual a b) ∧
    (∀ versions versions2 : Fin 6 → String,
      snapshotIsEqual protoEqual (retag versions snap) (retag versions2 cached) = true) ∧
    snapshotIsEqual protoEqual snap cached = true ∧
    Reconcile envoy protoEqual w request = some (w, {}, none) ∧
    GetSnapshot w.adsCache ncr.Spec.NodeID = (cached, none) := by
  have heq : snapshotIsEqual protoEqual snap cached = true :=
    snapshotIsEqual_of_same_items protoEqual snap cached hsame
  have hgetsnap : GetSnapshot w.adsCache ncr.Spec.NodeID = (cached, none) := by
    simp only [GetSnapshot, hcached]
  refine ⟨fun a b versions versions2 => snapshotIsEqual_retag protoEqual versions versions2 a b,
    fun versions versions2 => ?_, heq, ?_, hgetsnap⟩
  · rw [snapshotIsEqual_retag]
    exact heq
  · apply Reconcile_of_load_equal envoy protoEqual w request ncr resources snap hget hpub hres
      hload
    rw [hgetsnap]
    exact heq

theorem snapshotIsEqual_ignores_versions_witness :
    (sampleOldSnapshot.Resources Listener).Version = "v0" ∧
    ((loadResources sampleEnvoy sampleSecrets "node1-v1" "default" ""
        { Listeners := [⟨"L1", "listener L1"⟩] } (NewPath "spec" ["resources"])
        (newNodeSnapshot "node1" "v1")).1.Resources Listener).Version = "v1" ∧
    ((∀ (a b : Snapshot) (versions versions2 : Fin 6 → String),
      snapshotIsEqual sampleProtoEqual (retag versions a) (retag versions2 b) =
        snapshotIsEqual sampleProtoEqual a b) ∧
    (∀ versions versions2 : Fin 6 → String,
      snapshotIsEqual sampleProtoEqual
        (retag versions (loadResources sampleEnvoy sampleSecrets "node1-v1" "default" ""
          { Listeners := [⟨"L1", "listener L1"⟩] } (NewPath "spec" ["resources"])
          (newNodeSnapshot "node1" "v1")).1)
        (retag versions2 sampleOldSnapshot) = true) ∧
    snapshotIsEqual sampleProtoEqual
      (loadResources sampleEnvoy sampleSecrets "node1-v1" "default" ""
        { Listeners := [⟨"L1", "listener L1"⟩] } (NewPath "spec" ["resources"])
        (newNodeSnapshot "node1" "v1")).1 sampleOldSnapshot = true ∧
    Reconcile sampleEnvoy sampleProtoEqual
        (sampleWorld samplePublishedRevision (cacheWith sampleOldSnapshot)) sampleRequest =
      some (sampleWorld samplePublishedRevision (cacheWith sampleOldSnapshot), {}, none) ∧
    GetSnapshot (cacheWith sampleOldSnapshot) "node1" = (sampleOldSnapshot, none)) :=
  ⟨by decide, by decide,
    snapshotIsEqual_ignores_versions sampleEnvoy sampleProtoEqual
      (sampleWorld samplePublishedRevision (cacheWith sampleOldSnapshot)) sampleRequest
      samplePublishedRevision { Listeners := [⟨"L1", "listener L1"⟩] } _ sampleOldSnapshot
      rfl (by decide) rfl (Prod.ext rfl (by decide)) rfl
      (fun rtype => (resourcesAreEqual_iff_new sampleProtoEqual _ _).mp
        ((snapshotIsEqual_iff_forall sampleProtoEqual _ _).mp (by decide) rtype))⟩

/-! ## A node without a snapshot -/

theorem snapshotIsEqual_newNodeSnapshot_zero (protoEqual : Resource → Resource → Bool)
    (nodeID version : String) :
    snapshotIsEqual protoEqual (newNodeSnapshot nodeID version) zeroSnapshot = true := by
  rw [snapshotIsEqual_iff_forall]
  intro rtype
  rw [resourcesAreEqual_iff, newNodeSnapshot_Resources]
  simp [zeroSnapshot]

theorem snapshotIsEqual_zero_of_mem (protoEqual : Resource → Resource → Bool)
    (snap : Snapshot) (rtype : Fin 6) (k : String) (hk : k ∈ (snap.Resources rtype).Items) :
    snapshotIsEqual protoEqual snap zeroSnapshot = false := by
  rw [Bool.eq_false_iff]
  intro heq
  have hlen := ((resourcesAreEqual_iff protoEqual _ _).mp
    ((snapshotIsEqual_iff_forall protoEqual snap zeroSnapshot).mp heq rtype)).1
  have hkeys : k ∈ (snap.Resources rtype).Items.keys := AList.mem_keys.mp hk
  have hnil : (snap.Resources rtype).Items.entries = [] := by
    apply List.eq_nil_of_length_eq_zero
    rw [← hlen]
    simp [zeroSnapshot]
  simp [AList.keys, hnil] at hkeys

theorem exists_declaredName (resources : EnvoyResources)
    (h : resources.Endpoints ≠ [] ∨ resources.Clusters ≠ [] ∨ resources.Routes ≠ [] ∨
      resources.Listeners ≠ [] ∨ resources.Runtimes ≠ [] ∨ resources.Secrets ≠ []) :
    ∃ rtype k, k ∈ declaredNames resources rtype := by
  rcases h with h | h | h | h | h | h
  · obtain ⟨r, hr⟩ := List.exists_mem_of_ne_nil _ h
    exact ⟨Endpoint, r.Name, by simpa [declaredNames] using ⟨r, hr, rfl⟩⟩
  · obtain ⟨r, hr⟩ := List.exists_mem_of_ne_nil _ h
    exact ⟨Cluster, r.Name, by simpa [declaredNames, Cluster, Endpoint] using ⟨r, hr, rfl⟩⟩
  · obtain ⟨r, hr⟩ := List.exists_mem_of_ne_nil _ h
    exact ⟨Route, r.Name, by simpa [declaredNames, Cluster, Endpoint, Route] using ⟨r, hr, rfl⟩⟩
  · obtain ⟨r, hr⟩ := List.exists_mem_of_ne_nil _ h
    exact ⟨Listener, r.Name, by
      simpa [declaredNames, Cluster, Endpoint, Route, Listener] using ⟨r, hr, rfl⟩⟩
  · obtain ⟨r, hr⟩ := List.exists_mem_of_ne_nil _ h
    exact ⟨Runtime, r.Name, by
      simpa [declaredNames, Cluster, Endpoint, Route, Listener, Secret, Runtime] using
        ⟨r, hr, rfl⟩⟩
  · obtain ⟨r, hr⟩ := List.exists_mem_of_ne_nil _ h
    exact ⟨Secret, r.Name, by
      simpa [declaredNames, Cluster, Endpoint, Route, Listener, Secret] using ⟨r, hr, rfl⟩⟩

/-- C16: for a node without a snapshot in the cache, where `GetSnapshot`
answers with the zero value and an error the reconcile ignores, a revision
selected for publication that declares no resource in any category is not
published: the snapshot of `newNodeSnapshot` compares equal to the zero value
and the reconcile returns the world as it was given; whereas for a
specification that declares at least one resource and loads, the snapshot
compares unequal to the zero value and the reconcile calls `SetSnapshot`
once, for that node and with that snapshot. -/
theorem Reconcile_of_uncached_node (envoy : Envoy) (protoEqual : Resource → Resource → Bool)
    (w : World) (request : NamespacedName) (ncr : NodeConfigRevision)
    (hget : w.revisions request = .ok ncr)
    (hpub : IsTrueFor ncr.Status.Conditions RevisionPublishedCondition = true)
    (huncached : w.adsCache.snapshots ncr.Spec.NodeID = none) :
    (GetSnapshot w.adsCache ncr.Spec.NodeID).1 = zeroSnapshot ∧
    (GetSnapshot w.adsCache ncr.Spec.NodeID).2 ≠ none ∧
    (ncr.Spec.Resources = some ⟨[], [], [], [], [], []⟩ →
      snapshotIsEqual protoEqual (newNodeSnapshot ncr.Spec.NodeID ncr.Spec.Version)
        zeroSnapshot = true ∧
      Reconcile envoy protoEqual w request = some (w, {}, none)) ∧
    (∀ (resources : EnvoyResources) (snap : Snapshot),
      ncr.Spec.Resources = some resources →
      loadResources envoy w.secrets request.Name request.Namespace ncr.Spec.Serialization
        resources (NewPath "spec" ["resources"])
        (newNodeSnapshot ncr.Spec.NodeID ncr.Spec.Version) = (snap, none) →
      (resources.Endpoints ≠ [] ∨ resources.Clusters ≠ [] ∨ resources.Routes ≠ [] ∨
        resources.Listeners ≠ [] ∨ resources.Runtimes ≠ [] ∨ resources.Secrets ≠ []) →
      snapshotIsEqual protoEqual snap zeroSnapshot = false ∧
      ∃ w' err, Reconcile envoy protoEqual w request = some (w', {}, err) ∧
        w'.adsCache.setCalls = w.adsCache.setCalls ++ [(ncr.Spec.NodeID, snap)] ∧
        w'.adsCache.snapshots =
          Function.update w.adsCache.snapshots ncr.Spec.NodeID (some snap)) := by
  have hzero : GetSnapshot w.adsCache ncr.Spec.NodeID =
      (zeroSnapshot, some (.Other ("no snapshot found for node " ++ ncr.Spec.NodeID))) := by
    simp only [GetSnapshot, huncached]
  refine ⟨by rw [hzero], by rw [hzero]; simp, ?_, ?_⟩
  · intro hres
    have heq := snapshotIsEqual_newNodeSnapshot_zero protoEqual ncr.Spec.NodeID ncr.Spec.Version
    refine ⟨heq, ?_⟩
    apply Reconcile_of_load_equal envoy protoEqual w request ncr _
      (newNodeSnapshot ncr.Spec.NodeID ncr.Spec.Version) hget hpub hres
    · rfl
    · rw [hzero]
      exact heq
  · intro resources snap hres hload hsome
    obtain ⟨rtype, k, hk⟩ := exists_declaredName resources hsome
    have hmem : k ∈ (snap.Resources rtype).Items :=
      ((loadResources_stores envoy w.secrets _ _ _ resources _ _ snap hload).2.1 rtype k).mpr
        (Or.inl hk)
    have hne := snapshotIsEqual_zero_of_mem protoEqual snap rtype k hmem
    refine ⟨hne, _, _, Reconcile_of_load_unequal envoy protoEqual w request ncr resources snap
      hget hpub hres hload (by rw [hzero]; exact hne), rfl, rfl⟩

theorem Reconcile_of_uncached_node_witness :
    (Reconcile sampleEnvoy sampleProtoEqual (sampleWorld sampleEmptyRevision emptyCache)
      sampleRequest = some (sampleWorld sampleEmptyRevision emptyCache, {}, none)) ∧
    ((GetSnapshot emptyCache "node1").1 = zeroSnapshot ∧
    (GetSnapshot emptyCache "node1").2 ≠ none ∧
    (samplePublishedRevision.Spec.Resources = some ⟨[], [], [], [], [], []⟩ →
      snapshotIsEqual sampleProtoEqual (newNodeSnapshot "node1" "v1") zeroSnapshot = true ∧
      Reconcile sampleEnvoy sampleProtoEqual (sampleWorld samplePublishedRevision emptyCache)
        sampleRequest = some (sampleWorld samplePublishedRevision emptyCache, {}, none)) ∧
    (∀ (resources : EnvoyResources) (snap : Snapshot),
      samplePublishedRevision.Spec.Resources = some resources →
      loadResources sampleEnvoy sampleSecrets "node1-v1" "default" ""
        resources (NewPath "spec" ["resources"]) (newNodeSnapshot "node1" "v1") = (snap, none) →
      (resources.Endpoints ≠ [] ∨ resources.Clusters ≠ [] ∨ resources.Routes ≠ [] ∨
        resources.Listeners ≠ [] ∨ resources.Runtimes ≠ [] ∨ resources.Secrets ≠ []) →
      snapshotIsEqual sampleProtoEqual snap zeroSnapshot = false ∧
      ∃ w' err, Reconcile sampleEnvoy sampleProtoEqual
          (sampleWorld samplePublishedRevision emptyCache) sampleRequest =
          some (w', {}, err) ∧
        w'.adsCache.setCalls = [] ++ [("node1", snap)] ∧
        w'.adsCache.snapshots = Function.update emptyCache.snapshots "node1" (some snap))) :=
  ⟨((Reconcile_of_uncached_node sampleEnvoy sampleProtoEqual
      (sampleWorld sampleEmptyRevision emptyCache) sampleRequest sampleEmptyRevision
      rfl (by decide) rfl).2.2.1 rfl).2,
    Reconcile_of_uncached_node sampleEnvoy sampleProtoEqual
      (sampleWorld samplePublishedRevision emptyCache) sampleRequest samplePublishedRevision
      rfl (by decide) rfl⟩

/-! ## The desired revision is tainted -/

theorem setup_log_clean (r : ReconcileNodeConfigCache) (request : NamespacedName)
    (log : List Call) (ncc : NodeConfigCache) (desiredVersion : String)
    (hsetup : r.setup request = .ready log ncc desiredVersion) :
    ∀ c ∈ log, c.isStatusUpdateOrCleanup = false := by
  unfold ReconcileNodeConfigCache.setup at hsetup
  simp only [] at hsetup
  repeat' split at hsetup
  all_goals try (cases hsetup)
  all_goals
    intro c hc
    split_ifs at *
  all_goals
    simp_all only [Prod.mk.injEq, List.mem_append, List.mem_cons, List.mem_singleton,
      List.not_mem_nil, or_false]
  all_goals
    obtain ⟨hlog, -, -⟩ := ‹_ = _ ∧ _›
    subst hlog
    simp only [List.mem_append, List.mem_cons, List.mem_singleton, List.not_mem_nil, or_false,
      or_assoc] at hc
    obtain rfl | rfl | rfl | rfl := hc <;> rfl

theorem publish_of_tainted (r : ReconcileNodeConfigCache) (log : List Call)
    (ncc : NodeConfigCache) (desiredVersion version : String) (e : cacheError)
    (hversion : getVersionToPublish (r.lister log) ncc = (version, none))
    (hmark : r.markRevisionPublished (log ++ [.getVersionToPublish ncc]) ncc.Spec.NodeID version
      "VersionPublished" ("Version '" ++ version ++ "' has been published") = some (.cache e))
    (htainted : e.ErrorType = RevisionTaintedError) :
    r.publish log ncc desiredVersion =
      some (log ++ [.getVersionToPublish ncc] ++
          [.markRevisionPublished ncc.Spec.NodeID version "VersionPublished"
            ("Version '" ++ version ++ "' has been published")] ++
          [.setCacheOutOfSyncCondition ncc "DesiredRevisionTainted"
            "The revision thas describes the current spec is tainted due to detected failures"],
        {},
        (r.setCacheOutOfSyncCondition
          (log ++ [.getVersionToPublish ncc] ++
            [.markRevisionPublished ncc.Spec.NodeID version "VersionPublished"
              ("Version '" ++ version ++ "' has been published")])
          ncc "DesiredRevisionTainted"
          "The revision thas describes the current spec is tainted due to detected failures").2) := by
  simp only [ReconcileNodeConfigCache.publish, hversion, hmark, htainted, beq_self_eq_true,
    if_true]
  split <;> simp_all

/-- C13, as stated, fails when the write of the condition fails: the only
revision is tainted, the version selection yields the empty version, marking
it published reports the error of a tainted revision, and the reconcile
returns the error of `setCacheOutOfSyncCondition`, not a nil error. -/
theorem Reconcile_tainted_write_failure_counterexample :
    (sampleReconciler (some (.other "conflict"))).setup sampleRequest =
      .ready [.Get sampleRequest, .ensureNodeConfigRevision sampleTaintedCache "v2",
        .consolidateRevisionList sampleTaintedCache "v2"] sampleTaintedCache "v2" ∧
    getVersionToPublish (sampleLister [sampleRevisionV2]) sampleTaintedCache = ("", none) ∧
    (sampleReconciler (some (.other "conflict"))).markRevisionPublished
      [.Get sampleRequest, .ensureNodeConfigRevision sampleTaintedCache "v2",
        .consolidateRevisionList sampleTaintedCache "v2",
        .getVersionToPublish sampleTaintedCache]
      "node1" "" "VersionPublished" "Version '' has been published" =
      some (.cache ⟨RevisionTaintedError, "markRevisionPublished", "no untainted revision"⟩) ∧
    (sampleReconciler (some (.other "conflict"))).Reconcile sampleRequest =
      some ([.Get sampleRequest, .ensureNodeConfigRevision sampleTaintedCache "v2",
        .consolidateRevisionList sampleTaintedCache "v2",
        .getVersionToPublish sampleTaintedCache,
        .markRevisionPublished "node1" "" "VersionPublished" "Version '' has been published",
        .setCacheOutOfSyncCondition sampleTaintedCache "DesiredRevisionTainted"
          "The revision thas describes the current spec is tainted due to detected failures"],
        {}, some (.other "conflict")) :=
  ⟨by decide, by decide, by decide, by decide⟩

/-- C13, amended: when the first part of the reconcile has run, the version
selection yields a version (the empty one when no untainted revision is
available) and marking it published reports the error of a tainted revision,
the reconcile calls `setCacheOutOfSyncCondition` with the reason
`DesiredRevisionTainted` and stops: it returns an empty result, without
requeue and without retry delay, together with the error of that call, which
is nil when the condition is set; and neither the status update nor the
cleanup of unreferenced revisions is among the calls it has made. -/
theorem Reconcile_desired_revision_tainted (r : ReconcileNodeConfigCache)
    (request : NamespacedName) (log : List Call) (ncc : NodeConfigCache)
    (desiredVersion version : String) (e : cacheError)
    (hsetup : r.setup request = .ready log ncc desiredVersion)
    (hversion : getVersionToPublish (r.lister log) ncc = (version, none))
    (hmark : r.markRevisionPublished (log ++ [.getVersionToPublish ncc]) ncc.Spec.NodeID version
      "VersionPublished" ("Version '" ++ version ++ "' has been published") = some (.cache e))
    (htainted : e.ErrorType = RevisionTaintedError) :
    ∃ calls err, r.Reconcile request =
        some (calls, { Requeue := false, RequeueAfter := 0 }, err) ∧
      err = (r.setCacheOutOfSyncCondition
          (log ++ [.getVersionToPublish ncc] ++
            [.markRevisionPublished ncc.Spec.NodeID version "VersionPublished"
              ("Version '" ++ version ++ "' has been published")])
          ncc "DesiredRevisionTainted"
          "The revision thas describes the current spec is tainted due to detected failures").2 ∧
      (∃ c ∈ calls, c.setsOutOfSync "DesiredRevisionTainted" = true) ∧
      (∀ c ∈ calls, c.isStatusUpdateOrCleanup = false) := by
  have hrec : r.Reconcile request = r.publish log ncc desiredVersion := by
    simp only [ReconcileNodeConfigCache.Reconcile, hsetup]
  rw [publish_of_tainted r log ncc desiredVersion version e hversion hmark htainted] at hrec
  refine ⟨_, _, hrec, rfl, ?_, ?_⟩
  · exact ⟨_, List.mem_append_right _ (List.mem_singleton_self _), by
      simp [Call.setsOutOfSync]⟩
  · intro c hc
    simp only [List.mem_append, List.mem_singleton] at hc
    rcases hc with ((hc | rfl) | rfl) | rfl
    · exact setup_log_clean r request log ncc desiredVersion hsetup c hc
    · rfl
    · rfl
    · rfl

theorem Reconcile_desired_revision_tainted_witness :
    ∃ calls err, (sampleReconciler none).Reconcile sampleRequest =
        some (calls, { Requeue := false, RequeueAfter := 0 }, err) ∧
      err = none ∧
      (∃ c ∈ calls, c.setsOutOfSync "DesiredRevisionTainted" = true) ∧
      (∀ c ∈ calls, c.isStatusUpdateOrCleanup = false) :=
  Reconcile_desired_revision_tainted (sampleReconciler none) sampleRequest
    [.Get sampleRequest, .ensureNodeConfigRevision sampleTaintedCache "v2",
      .consolidateRevisionList sampleTaintedCache "v2"]
    sampleTaintedCache "v2" ""
    ⟨RevisionTaintedError, "markRevisionPublished", "no untainted revision"⟩
    (by decide) (by decide) (by decide) rfl

end Marin3r
